import Mathlib

/-!
Verification development for the quesma search path.

We give a shallow embedding, in Lean, of the parts of the quesma code base
that the specification talks about: the DSL query parser
(`quesma/queryparser/query_parser.go`), the schema transformation passes
(`quesma/quesma/schema_transformer.go`, `quesma/quesma/schema_array_transformer.go`),
the query runner fragments of `quesma/quesma/search.go`, and the highlighter
(`model` package).  Go maps are embedded as association lists, Go strings as
Lean strings (respectively lists of characters where byte positions matter),
Go `float64` JSON numbers as integers (the embedded code only ever converts
them with `int(...)`), and Go panics as `Option.none` results.
-/

namespace Quesma

/-- A single-quote character (ASCII 39). -/
def sqc : Char := Char.ofNat 39

/-- The one-character string consisting of a single quote. -/
def sq : String := String.singleton sqc

/-- `strings.Contains(s, c)` for a one-character needle. -/
def strContains (s : String) (c : Char) : Bool := s.data.contains c

/-- `strings.HasPrefix`. -/
def strStartsWith (s pre : String) : Bool := pre.data.isPrefixOf s.data

/-- The character-list worker of `replaceAll` (left-to-right,
non-overlapping); the fuel dominates the list length. -/
def replaceAllF (pat repl : List Char) : Nat → List Char → List Char
  | 0, s => s
  | _ + 1, [] => []
  | fuel + 1, x :: rest =>
    if pat.isEmpty then x :: rest
    else if pat.isPrefixOf (x :: rest) then
      repl ++ replaceAllF pat repl fuel ((x :: rest).drop pat.length)
    else x :: replaceAllF pat repl fuel rest

/-- `strings.ReplaceAll(s, pat, repl)` (for the non-empty patterns the
embedded code uses). -/
def replaceAll (s pat repl : String) : String :=
  { data := replaceAllF pat.data repl.data s.data.length s.data }

/-- The character-list worker of `splitOnChar`. -/
def splitCharList (c : Char) : List Char → List (List Char)
  | [] => [[]]
  | x :: rest =>
    match splitCharList c rest with
    | [] => [[]]
    | h :: t => if x == c then [] :: h :: t else (x :: h) :: t

/-- `strings.Split(s, sep)` for a one-character separator. -/
def splitOnChar (s : String) (c : Char) : List String :=
  (splitCharList c s.data).map (fun l => { data := l })

/-- `strings.ToUpper` for the ASCII operator strings the code uppercases. -/
def asciiUpper (s : String) : String :=
  { data := s.data.map (fun c => if 97 ≤ c.toNat ∧ c.toNat ≤ 122 then Char.ofNat (c.toNat - 32) else c) }

/-- Byte-wise lexicographic string order (`sort.Strings`), on characters. -/
def lexLe : List Char → List Char → Bool
  | [], _ => true
  | _ :: _, [] => false
  | a :: as, b :: bs =>
    if a < b then true
    else if b < a then false
    else lexLe as bs

/-- The order `sort.Strings` sorts by, as a decidable relation. -/
def strLeProp (a b : String) : Prop := lexLe a.data b.data = true

instance : DecidableRel strLeProp := fun a b => instDecidableEqBool _ _

/-- The space character. -/
def spaceChar : Char := Char.ofNat 32

/-! ## JSON values

`QueryMap = map[string]interface{}` from the Go code is embedded as an
association list; `float64` numbers are embedded as integers (see above). -/

inductive JsonValue where
  | str (s : String)
  | num (n : Int)
  | bool (b : Bool)
  | null
  | arr (xs : List JsonValue)
  | obj (fields : List (String × JsonValue))

/-- Association-list embedding of Go `QueryMap`. -/
abbrev QueryMap := List (String × JsonValue)

/-- Go map lookup `m[k]` (first binding wins; Go maps have unique keys). -/
def lookupQM (m : QueryMap) (k : String) : Option JsonValue :=
  match m with
  | [] => none
  | (k0, v) :: rest => if k0 = k then some v else lookupQM rest k

/-! ## The expression AST (`model` package)

Modelled from the spec: the `model` expression AST (`Expr` variants
`Literal`, `ColumnRef`, `TableRef`, `Infix`, `Prefix`, `Function`,
`MultiFunction`, `ArrayAccess`, `NestedProperty`, `Aliased`, `OrderBy`,
`Distinct`, `Lambda`, `WindowFunction`, `ParenExpr`) is declared in source
files that are not part of the provided sources; only its constructors and
visitors appear in the provided callers.  Literal values are embedded as
strings, which is what every constructor call in the embedded code passes. -/
inductive Expr where
  | literal (value : String)
  | columnRef (name : String)
  | tableRef (name : String)
  | infixExpr (left : Expr) (op : String) (right : Expr)
  | prefixExpr (op : String) (args : List Expr)
  | functionExpr (name : String) (args : List Expr)
  | multiFunction (name : String) (args : List Expr)
  | arrayAccess (colName : String) (index : Expr)
  | nestedProperty (colName : String) (propertyName : String)
  | aliased (e : Expr) (aliasName : String)
  | orderByExpr (exprs : List Expr) (descending : Bool)
  | distinctExpr (e : Expr)
  | lambdaExpr (args : List String) (body : Expr)
  | windowFunction (name : String) (args : List Expr) (partitionBy : List Expr) (orderBy : Expr)
  | parenExpr (args : List Expr)

/-- Modelled from the spec: `model.And`/`model.Or` (missing from the provided
sources) combine a list of possibly-nil statements with one operator; nil
entries are dropped, a single statement is returned as is, several are folded
left-associatively into `Infix` nodes (the provided range parser test expects
`(a AND b)` for two conjuncts). -/
def combineStatements (op : String) (stmts : List (Option Expr)) : Option Expr :=
  match stmts.filterMap id with
  | [] => none
  | x :: xs => some (xs.foldl (fun acc e => Expr.infixExpr acc op e) x)

/-- `model.And`. -/
def exprAnd (stmts : List (Option Expr)) : Option Expr := combineStatements "AND" stmts

/-- `model.Or`. -/
def exprOr (stmts : List (Option Expr)) : Option Expr := combineStatements "OR" stmts

/-- Modelled from the spec: `model.SimpleQuery` = WHERE clause + parse-success
flag (+ optional field name set by the range parser); order-by is not needed
by any claim and is omitted. -/
structure SimpleQuery where
  whereClause : Option Expr
  canParse : Bool
  fieldName : String := ""


/-- `model.NewSimpleQuery`. -/
def newSimpleQuery (w : Option Expr) (canParse : Bool) : SimpleQuery :=
  { whereClause := w, canParse := canParse }

/-- `model.NewSimpleQueryWithFieldName`. -/
def newSimpleQueryWithFieldName (w : Option Expr) (canParse : Bool) (f : String) : SimpleQuery :=
  { whereClause := w, canParse := canParse, fieldName := f }

/-- Modelled from the spec: `model.SelectCommand` fields used by the
transformation passes. -/
structure SelectCommand where
  columns : List Expr
  groupBy : List Expr
  orderBy : List Expr
  fromClause : Option Expr
  whereClause : Option Expr
  limit : Nat := 0
  sampleLimit : Nat := 0
  isDistinct : Bool := false

/-- `model.Query` fields used by the transformation passes. -/
structure Query where
  selectCommand : SelectCommand
  tableName : String


/-! ## Tables and schemas -/

/-- `clickhouse.Column`: we keep the column name and the ClickHouse type
rendered as a string (`col.Type.String()` in Go), which is all the embedded
code inspects. -/
structure Column where
  name : String
  typ : String
  isFullTextMatch : Bool := false
  deriving DecidableEq, Repr

/-- `clickhouse.Attribute` (keys/values array pair). -/
structure Attribute where
  keysArrayName : String
  valuesArrayName : String
  deriving DecidableEq, Repr

/-- `clickhouse.Table`: name, columns (`Cols`), the `Config.hasTimestamp`
flag, the configured timestamp column and the attribute array list. -/
structure Table where
  name : String
  cols : List (String × Column)
  hasTimestampConfig : Bool := false
  timestampColumn : Option String := none
  attributes : List Attribute := []
  deriving DecidableEq, Repr

/-- `clickhouse.DateTimeType`. -/
inductive DateTimeType where
  | dateTime64
  | dateTime
  | invalid
  deriving DecidableEq, Repr

/-- The `timestampFieldName` constant of the `clickhouse` package
(the synthetic `@timestamp` column added at ingest). -/
def timestampFieldName : String := "@timestamp"

/-- `Table.GetDateTimeType` (clickhouse/table.go). -/
def Table.getDateTimeType (t : Table) (fieldName : String) : DateTimeType :=
  match lookupQMc t.cols fieldName with
  | some col =>
    if strStartsWith col.typ "DateTime64" then .dateTime64
    else if strStartsWith col.typ "DateTime" then .dateTime
    else if t.hasTimestampConfig && fieldName == timestampFieldName then .dateTime64
    else .invalid
  | none =>
    if t.hasTimestampConfig && fieldName == timestampFieldName then .dateTime64
    else .invalid
where lookupQMc (m : List (String × Column)) (k : String) : Option Column :=
  match m with
  | [] => none
  | (k0, v) :: rest => if k0 = k then some v else lookupQMc rest k

/-- Generic association-list lookup used for all other Go maps. -/
def alookup {α : Type} (m : List (String × α)) (k : String) : Option α :=
  match m with
  | [] => none
  | (k0, v) :: rest => if k0 = k then some v else alookup rest k

/-- `clickhouse.FieldInfo`. -/
inductive FieldInfo where
  | existsAndIsBaseType
  | existsAndIsArray
  | notExists
  deriving DecidableEq, Repr

/-- `Column.isArray`: the embedded code only ever distinguishes array columns
by their type string. -/
def Column.isArray (c : Column) : Bool := strStartsWith c.typ "Array"

/-- `Table.GetFieldInfo` (clickhouse/table.go). -/
def Table.getFieldInfo (t : Table) (fieldName : String) : FieldInfo :=
  match alookup t.cols fieldName with
  | none => .notExists
  | some col => if col.isArray then .existsAndIsArray else .existsAndIsBaseType

/-- `Table.GetFulltextFields` (clickhouse/table.go); Go iterates the column
map in unspecified order, the embedding iterates the list order. -/
def Table.getFulltextFields (t : Table) : List String :=
  (t.cols.filter (fun kv => kv.2.isFullTextMatch)).map (fun kv => kv.2.name)

/-- `Table.GetTimestampFieldName` (clickhouse/table.go): `none` embeds the Go
error return. -/
def Table.getTimestampFieldName (t : Table) : Option String := t.timestampColumn

/-- `schema.Field`. -/
structure SchemaField where
  propertyName : String
  internalPropertyName : String
  typeName : String
  deriving DecidableEq, Repr

/-- `schema.Schema`: field map plus alias map. -/
structure Schema where
  fields : List (String × SchemaField)
  aliases : List (String × String)
  deriving DecidableEq, Repr

/-- Modelled from the spec: `Schema.ResolveField` (missing from the provided
sources; its unit test is provided) checks aliases first, then fields, then
reports absence. -/
def Schema.resolveField (s : Schema) (fieldName : String) : Option SchemaField :=
  match alookup s.aliases fieldName with
  | some target => alookup s.fields target
  | none => alookup s.fields fieldName

/-- The schema registry as seen by the embedded code: `FindSchema` by table
name (the registry recomputes schemas on demand; the embedding takes the
resulting snapshot). -/
structure SchemaRegistry where
  schemas : List (String × Schema)
  deriving DecidableEq, Repr

def SchemaRegistry.findSchema (r : SchemaRegistry) (name : String) : Option Schema :=
  alookup r.schemas name

/-! ## Size measures for JSON values (used for termination only) -/

mutual

def jsize : JsonValue → Nat
  | .str _ => 1
  | .num _ => 1
  | .bool _ => 1
  | .null => 1
  | .arr xs => 1 + jsizeL xs
  | .obj fs => 1 + jsizeO fs

def jsizeL : List JsonValue → Nat
  | [] => 0
  | x :: xs => 1 + jsize x + jsizeL xs

def jsizeO : List (String × JsonValue) → Nat
  | [] => 0
  | (_, v) :: xs => 1 + jsize v + jsizeO xs

end

/-- Size of an optional JSON value. -/
def josize : Option JsonValue → Nat
  | some v => jsize v
  | none => 0

theorem lookupQM_jsize_lt {m : QueryMap} {k : String} {v : JsonValue}
    (h : lookupQM m k = some v) : jsize v < jsizeO m := by
  induction m with
  | nil => simp [lookupQM] at h
  | cons hd tl ih =>
    obtain ⟨k0, v0⟩ := hd
    simp only [lookupQM] at h
    by_cases hk : k0 = k
    · simp [hk] at h
      simp [jsizeO, ← h]
      omega
    · simp [hk] at h
      have := ih h
      simp [jsizeO]
      omega

theorem josize_lookupQM_le (m : QueryMap) (k : String) :
    josize (lookupQM m k) ≤ jsizeO m := by
  cases h : lookupQM m k with
  | none => simp [josize]
  | some v => simpa [josize] using Nat.le_of_lt (lookupQM_jsize_lt h)

theorem jsizeO_filter_le (p : String × JsonValue → Bool) (m : QueryMap) :
    jsizeO (m.filter p) ≤ jsizeO m := by
  induction m with
  | nil => simp
  | cons hd tl ih =>
    obtain ⟨k0, v0⟩ := hd
    by_cases hp : p (k0, v0)
    · simp [List.filter, hp, jsizeO]
      omega
    · simp [List.filter, hp, jsizeO]
      omega

theorem lex_of_le_of_lt {a b c d : Nat} (h1 : a ≤ c) (h2 : b < d) :
    Prod.Lex (· < ·) (· < ·) (a, b) (c, d) := by
  rcases Nat.lt_or_ge a c with h | h
  · exact Prod.Lex.left _ _ h
  · have : a = c := Nat.le_antisymm h1 h
    subst this
    exact Prod.Lex.right _ h2

theorem lex_of_lt {a b c d : Nat} (h1 : a < c) :
    Prod.Lex (· < ·) (· < ·) (a, b) (c, d) :=
  Prod.Lex.left _ _ h1

/-! ## Go formatting helpers -/

/-! Go `fmt.Sprintf` with verb `v` on a JSON value. -/

mutual

def goFmt : JsonValue → String
  | .str s => s
  | .num n => toString n
  | .bool b => cond b "true" "false"
  | .null => "<nil>"
  | .arr xs => "[" ++ String.intercalate " " (goFmtList xs) ++ "]"
  | .obj fs => "map[" ++ String.intercalate " " (goFmtObj fs) ++ "]"

def goFmtList : List JsonValue → List String
  | [] => []
  | x :: xs => goFmt x :: goFmtList xs

def goFmtObj : List (String × JsonValue) → List String
  | [] => []
  | (k, v) :: xs => (k ++ ":" ++ goFmt v) :: goFmtObj xs

end

/-- `sprint` (query_parser.go:1024), fueled: convert a JSON value into the
literal string embedded into the SQL text. Strings are single-quoted, maps
recurse into their `value` key, everything else is printed with `%v`.  The
recursion strictly shrinks the JSON value, so `jsize` fuel is sufficient. -/
def sprintF : Nat → JsonValue → String
  | 0, _ => ""
  | fuel + 1, v =>
    match v with
    | .str s => sq ++ s ++ sq
    | .obj m =>
      match lookupQM m "value" with
      | some v2 => sprintF fuel v2
      | none => "<nil>"
    | .num n => toString n
    | .bool b => cond b "true" "false"
    | .null => "<nil>"
    | .arr xs => goFmt (.arr xs)

/-- `sprint` at its sufficient fuel. -/
def sprint (v : JsonValue) : String := sprintF (jsize v) v

/-- `strconv.Quote` for plain identifiers (field names in scope contain no
characters that Go would escape). -/
def goQuote (s : String) : String := "\"" ++ s ++ "\""

/-- `strings.TrimSuffix`. -/
def trimSuffixStr (s suf : String) : String :=
  if suf.data.isSuffixOf s.data then { data := s.data.take (s.data.length - suf.data.length) }
  else s

/-! ## The parser environment

`ClickhouseQueryTranslator` state: the table, the schema registry snapshot
and the two external collaborators that are not part of the provided
sources and are therefore modelled from the spec as opaque functions:
`isoParses` (the `iso8601` library: does the string parse as ISO-8601) and
`dateMath` (date-math parse + render: the result string, or failure), and
`luceneTranslate` (the embedded Lucene translator, which always returns an
expression). -/
structure ParserEnv where
  table : Table
  registry : SchemaRegistry
  isoParses : String → Bool
  dateMath : String → Option String
  luceneTranslate : String → List String → Expr

/-- `ClickhouseQueryTranslator.ResolveField` (query_parser.go:1331). -/
def resolveField (env : ParserEnv) (fieldName : String) : String :=
  match env.registry.findSchema env.table.name with
  | none => fieldName
  | some sch =>
    match sch.resolveField fieldName with
    | some f => f.internalPropertyName
    | none => fieldName

/-! ## Standalone parse functions (query_parser.go)

Each function returns `Option SimpleQuery`; `none` embeds a Go panic
(an unchecked type assertion or out-of-range index). Functions that cannot
panic return a plain `SimpleQuery`. -/

/-- `parseTerm` (query_parser.go:492). -/
def parseTerm (qm : QueryMap) : SimpleQuery :=
  match qm with
  | [(k, v)] =>
    if k = "_index" then
      newSimpleQuery (some (.infixExpr (.literal "0") "="
        (.literal ("0 /* " ++ k ++ "=" ++ sprint v ++ " */")))) true
    else
      newSimpleQuery (some (.infixExpr (.columnRef k) "=" (.literal (sprint v)))) true
  | _ => newSimpleQuery none false

/-- `parseTerms` (query_parser.go:510). -/
def parseTerms (qm : QueryMap) : SimpleQuery :=
  match qm with
  | [(k, v)] =>
    if strStartsWith k "_" then newSimpleQuery none true
    else
      match v with
      | .arr [v0] =>
        newSimpleQuery (some (.infixExpr (.columnRef k) "=" (.literal (sprint v0)))) true
      | .arr vs =>
        let values := vs.map sprint
        let combined := "(" ++ String.intercalate "," values ++ ")"
        newSimpleQuery (some (.infixExpr (.columnRef k) "IN" (.literal combined))) true
      | _ => newSimpleQuery none false
  | _ => newSimpleQuery none false

/-- `parseMatchAll` (query_parser.go:545). -/
def parseMatchAll (_ : QueryMap) : SimpleQuery := newSimpleQuery none true

/-- A hexadecimal digit value. -/
def hexDigitVal (c : Char) : Option Nat :=
  if 48 ≤ c.toNat ∧ c.toNat ≤ 57 then some (c.toNat - 48)
  else if 97 ≤ c.toNat ∧ c.toNat ≤ 102 then some (c.toNat - 87)
  else if 65 ≤ c.toNat ∧ c.toNat ≤ 70 then some (c.toNat - 55)
  else none

/-- `hex.DecodeString`, with the decoded bytes read back as characters. -/
def hexDecodeChars : List Char → Option (List Char)
  | [] => some []
  | [_] => none
  | a :: b :: rest => do
    let x ← hexDigitVal a
    let y ← hexDigitVal b
    let r ← hexDecodeChars rest
    pure (Char.ofNat (16 * x + y) :: r)

/-- One step of the id-rewriting loop of `parseIds`: strip the hex part
before the first `q`, decode it and requote. `none` is the hex-decode
error (which makes `parseIds` return an empty valid query). -/
def decodeOneId (id : String) : Option String :=
  let idInHex := id.data.takeWhile (fun c => c ≠ 'q')
  match hexDecodeChars idInHex with
  | none => none
  | some decoded =>
    let tsWithoutTZ := trimSuffixStr { data := decoded } " +0000 UTC"
    some (sq ++ tsWithoutTZ ++ sq)

/-- All values of the `values` array must be strings, otherwise Go panics
(`id.(string)`). -/
def idStrings : List JsonValue → Option (List String)
  | [] => some []
  | .str s :: rest => (idStrings rest).map (fun r => s :: r)
  | _ => none

/-- Decode every id; a single failure aborts (Go returns `(nil, true)`). -/
def decodeIds : List String → Option (List String)
  | [] => some []
  | id :: rest => do
    let d ← decodeOneId id
    let r ← decodeIds rest
    pure (d :: r)

/-- `parseIds` (query_parser.go:338). The outer `none` embeds the Go panic
on non-string values. -/
def parseIds (env : ParserEnv) (qm : QueryMap) : Option SimpleQuery :=
  match lookupQM qm "values" with
  | none => some (newSimpleQuery none false)
  | some val =>
    let idsRaw : Option (List String) :=
      match val with
      | .arr values => idStrings values
      | _ => some []
    match idsRaw with
    | none => none
    | some ids =>
      match env.table.getTimestampFieldName with
      | none => some (newSimpleQuery none true)
      | some timestampColumnName =>
        if ids.isEmpty then some (newSimpleQuery none false)
        else
          match decodeIds ids with
          | none => some (newSimpleQuery none true)
          | some decoded =>
            match alookup env.table.cols timestampColumnName with
            | none => some (newSimpleQuery none true)
            | some col =>
              if col.typ = "DateTime64" then
                match decoded with
                | [d] => some (newSimpleQuery (some (.infixExpr (.columnRef timestampColumnName) " = "
                    (.functionExpr "toDateTime64" [.literal d, .literal "3"]))) true)
                | _ => some (newSimpleQuery (some (.infixExpr (.columnRef timestampColumnName) " IN "
                    (.functionExpr "toDateTime64" [.literal (String.intercalate "," decoded), .literal "3"]))) true)
              else if col.typ = "DateTime" then
                match decoded with
                | [d] => some (newSimpleQuery (some (.infixExpr (.columnRef timestampColumnName) " = "
                    (.functionExpr "toDateTime" [.literal ("toDateTime(" ++ d ++ ")")]))) true)
                | _ => some (newSimpleQuery (some (.infixExpr (.columnRef timestampColumnName) " IN "
                    (.functionExpr "toDateTime" [.literal (String.intercalate "," decoded)]))) true)
              else some (newSimpleQuery none true)

/-- `parseMatch` (query_parser.go:559); `matchPhrase` selects the
`match_phrase` behaviour. -/
def parseMatch (env : ParserEnv) (matchPhrase : Bool) (qm : QueryMap) : Option SimpleQuery :=
  match qm with
  | [(fieldName0, v)] =>
    let fieldName := resolveField env fieldName0
    let vUnNested : JsonValue :=
      match v with
      | .obj m => (lookupQM m "query").getD .null
      | _ => v
    match vUnNested with
    | .str vAsString =>
      let subQueries := if matchPhrase then [vAsString] else splitOnChar vAsString spaceChar
      match subQueries.mapM (fun subQuery =>
          if fieldName = "_id" then
            (parseIds env [("values", .arr [.str subQuery])]).map (fun q => q.whereClause)
          else
            some (some (.infixExpr (.columnRef fieldName) "iLIKE"
              (.literal (sq ++ "%" ++ subQuery ++ "%" ++ sq))))) with
      | none => none
      | some statements => some (newSimpleQuery (exprOr statements) true)
    | _ =>
      some (newSimpleQuery (some (.infixExpr (.columnRef fieldName) "=="
        (.literal (sprint vUnNested)))) true)
  | _ => some (newSimpleQuery none false)

/-- `extractFields` (query_parser.go:1006). -/
def extractFields (env : ParserEnv) : List JsonValue → List String
  | [] => []
  | f :: rest =>
    match f with
    | .str s =>
      if s = "*" then env.table.getFulltextFields
      else resolveField env s :: extractFields env rest
    | _ => extractFields env rest

/-- `parseMultiMatch` (query_parser.go:603). -/
def parseMultiMatch (env : ParserEnv) (qm : QueryMap) : SimpleQuery :=
  let fields? : Option (List String) :=
    match lookupQM qm "fields" with
    | some (.arr fs) => some (extractFields env fs)
    | some _ => none
    | none => some env.table.getFulltextFields
  match fields? with
  | none => newSimpleQuery none false
  | some fields =>
    let alwaysFalseStmt : Expr := .literal "false"
    if fields.isEmpty then newSimpleQuery (some alwaysFalseStmt) true
    else
      match lookupQM qm "query" with
      | none => newSimpleQuery (some alwaysFalseStmt) false
      | some q =>
        match q with
        | .str queryAsString =>
          let isPhrase :=
            match lookupQM qm "type" with
            | some (.str t) => t == "phrase"
            | _ => false
          let subQueries := if isPhrase then [queryAsString] else splitOnChar queryAsString spaceChar
          let sqls := fields.flatMap (fun field =>
            subQueries.map (fun subQ =>
              (some (.infixExpr (.columnRef field) "iLIKE"
                (.literal (sq ++ "%" ++ subQ ++ "%" ++ sq))) : Option Expr)))
          newSimpleQuery (exprOr sqls) true
        | _ => newSimpleQuery (some alwaysFalseStmt) false

/-- `parsePrefix` (query_parser.go:659). `none` embeds the unchecked
`vCasted["value"].(string)` type assertion, which panics when the `value`
key is absent or not a string. -/
def parsePrefix (env : ParserEnv) (qm : QueryMap) : Option SimpleQuery :=
  match qm with
  | [(fieldName0, v)] =>
    let fieldName := resolveField env fieldName0
    match v with
    | .str s =>
      some (newSimpleQuery (some (.infixExpr (.columnRef fieldName) "iLIKE"
        (.literal (sq ++ s ++ "%" ++ sq)))) true)
    | .obj vCasted =>
      match lookupQM vCasted "value" with
      | some (.str token) =>
        some (newSimpleQuery (some (.infixExpr (.columnRef fieldName) "iLIKE"
          (.literal (sq ++ token ++ "%" ++ sq)))) true)
      | _ => none
    | _ => some (newSimpleQuery none false)
  | _ => some (newSimpleQuery none false)

/-- `parseWildcard` (query_parser.go:689). -/
def parseWildcard (env : ParserEnv) (qm : QueryMap) : SimpleQuery :=
  match qm with
  | [(fieldName0, v)] =>
    let fieldName := resolveField env fieldName0
    match v with
    | .obj vAsMap =>
      match lookupQM vAsMap "value" with
      | some (.str valueAsString) =>
        newSimpleQuery (some (.infixExpr (.columnRef fieldName) "iLIKE"
          (.literal (sq ++ replaceAll valueAsString "*" "%" ++ sq)))) true
      | some _ => newSimpleQuery none false
      | none => newSimpleQuery none false
    | _ => newSimpleQuery none false
  | _ => newSimpleQuery none false

/-- `parseQueryString` (query_parser.go:723). `none` embeds the two
unchecked type assertions `fieldsRaw.([]interface{})` and
`queryMap["query"].(string)`. -/
def parseQueryString (env : ParserEnv) (qm : QueryMap) : Option SimpleQuery :=
  let fields? : Option (List String) :=
    match lookupQM qm "fields" with
    | some (.arr fs) => some (extractFields env fs)
    | some _ => none
    | none => some env.table.getFulltextFields
  match fields? with
  | none => none
  | some fields =>
    match lookupQM qm "query" with
    | some (.str query) =>
      some (newSimpleQuery (some (env.luceneTranslate query fields)) true)
    | _ => none

/-- The special characters that `isPatternReallySimple` rejects
(query_parser.go:954). -/
def regexpSpecialChars : List Char :=
  [Char.ofNat 63, '+', '|', Char.ofNat 123, Char.ofNat 125, '[', ']', '(', ')',
   Char.ofNat 34, Char.ofNat 92]

/-- The per-character pass of `isPatternReallySimple`: every `*` must be
preceded by `.` (prev is the previous character). -/
def simpleStarsAux : Char → List Char → Bool
  | _, [] => true
  | prev, c :: rest =>
    if c = '*' ∧ prev ≠ '.' then false else simpleStarsAux c rest

/-- `isPatternReallySimple` (inside `parseRegexp`, query_parser.go:954). -/
def isPatternReallySimple (p : String) : Bool :=
  let cs := p.data
  if cs.any (fun c => regexpSpecialChars.contains c) then false
  else if h : cs = [] then true
  else if cs.head h = '*' then false
  else
    match cs with
    | [] => true
    | c0 :: rest => simpleStarsAux c0 rest

/-- The `\_` replacement string. -/
def bslashUnderscore : String := { data := [Char.ofNat 92, '_'] }

/-- `parseRegexp` (query_parser.go:947); `result` starts as the zero
`SimpleQuery` (nil where-clause, `can_parse=false`). -/
def parseRegexp (qm : QueryMap) : SimpleQuery :=
  match qm with
  | [(fieldName, parametersRaw)] =>
    match parametersRaw with
    | .obj parameters =>
      match lookupQM parameters "value" with
      | some (.str pattern) =>
        if isPatternReallySimple pattern then
          let p1 := replaceAll (replaceAll (replaceAll pattern "_" bslashUnderscore) ".*" "%") "." "_"
          newSimpleQuery (some (.infixExpr (.columnRef fieldName) "LIKE"
            (.literal (sq ++ p1 ++ sq)))) true
        else
          newSimpleQuery (some (.infixExpr (.columnRef fieldName) "REGEXP"
            (.literal (sq ++ pattern ++ sq)))) true
      | some _ => newSimpleQuery none false
      | none => newSimpleQuery none false
    | _ => newSimpleQuery none false
  | _ => newSimpleQuery none false

/-- One `exists` field: the SQL produced for it (query_parser.go:909-939).
The result replaces the accumulated `sql`; `Sum.inl` means the early
return taken for `point`-typed undeclared fields. -/
def parseExistsField (env : ParserEnv) (fieldName : String) (sqlAcc : Option Expr) :
    Option Expr ⊕ Option Expr :=
  let resolved := resolveField env fieldName
  let fieldNameQuoted := goQuote resolved
  match env.table.getFieldInfo (resolveField env resolved) with
  | .existsAndIsBaseType =>
    .inr (some (.infixExpr (.columnRef resolved) "IS" (.literal "NOT NULL")))
  | .existsAndIsArray =>
    .inr (some (.infixExpr (.nestedProperty fieldNameQuoted "size0") "=" (.literal "0")))
  | .notExists =>
    let isPoint :=
      match env.registry.findSchema env.table.name with
      | none => false
      | some sch =>
        match alookup sch.fields resolved with
        | some f => f.typeName = "point"
        | none => false
    if isPoint then .inl sqlAcc
    else
      let stmts := env.table.attributes.map (fun a =>
        (some (Expr.infixExpr
          (.functionExpr "has" [.columnRef a.keysArrayName, .columnRef resolved])
          "AND"
          (.infixExpr (.arrayAccess a.valuesArrayName
              (.functionExpr "indexOf" [.columnRef a.keysArrayName, .literal fieldNameQuoted]))
            "IS" (.literal "NOT NULL"))) : Option Expr))
      .inr (exprOr stmts)

/-- The loop of `parseExists` (query_parser.go:897): iterates all entries,
the last one wins; a non-string value aborts with `can_parse=false`. -/
def parseExistsLoop (env : ParserEnv) (sqlAcc : Option Expr) : QueryMap → SimpleQuery
  | [] => newSimpleQuery sqlAcc true
  | (_, v) :: rest =>
    match v with
    | .str fieldName =>
      match parseExistsField env fieldName sqlAcc with
      | .inl sql => newSimpleQuery sql true
      | .inr sql => parseExistsLoop env sql rest
    | _ => newSimpleQuery none false

/-- `parseExists` (query_parser.go:897). -/
def parseExists (env : ParserEnv) (qm : QueryMap) : SimpleQuery :=
  parseExistsLoop env none qm

/-- `parseGeoBoundingBox` (query_parser.go:1390). `none` embeds the
unchecked `v.(QueryMap)` assertions and the `[0]`/`[1]` corner indexing. -/
def parseGeoBoundingBox : QueryMap → Option SimpleQuery
  | [] => some (newSimpleQuery (exprAnd []) true)
  | (_, v) :: rest =>
    match v with
    | .obj vm =>
      match lookupQM vm "bottom_right" with
      | none => some (newSimpleQuery none false)
      | some bottomRight =>
        let brOk : Option Unit :=
          match bottomRight with
          | .arr (_ :: _ :: _) => some ()
          | .arr _ => none
          | _ => some ()
        match brOk with
        | none => none
        | some _ =>
          match lookupQM vm "top_left" with
          | none => some (newSimpleQuery none false)
          | some topLeft =>
            let tlOk : Option Unit :=
              match topLeft with
              | .arr (_ :: _ :: _) => some ()
              | .arr _ => none
              | _ => some ()
            match tlOk with
            | none => none
            | some _ => parseGeoBoundingBox rest
    | _ => none

/-! ## `parseRange` (query_parser.go:779) -/

/-- `util.MapKeysSorted`: the keys of the map, sorted byte-wise ascending
(`sort.Strings`). -/
def mapKeysSorted (m : QueryMap) : List String :=
  List.insertionSort strLeProp (m.map Prod.fst)

/-- The second return value of `parseDateTimeString` (query_parser.go:880):
the name of the ClickHouse parse function for the datetime kind of the
column. -/
def parseDateTimeStringFn (env : ParserEnv) (field : String) : String :=
  match env.table.getDateTimeType (resolveField env field) with
  | .dateTime64 => "parseDateTime64BestEffort"
  | .dateTime => "parseDateTimeBestEffort"
  | .invalid => ""

/-- The `Invalid`-datetime-kind branch of the `parseRange` loop: strip
accidental quotes from a numeric literal. -/
def rangeNumericLiteral (vToPrint : String) : String :=
  let cs := vToPrint.data
  if cs.length > 2 ∧ cs.head? = some sqc ∧ cs.getLast? = some sqc then
    let mid := (cs.drop 1).take (cs.length - 2)
    if mid.all (fun c => c.isDigit ∨ c = '.') then { data := mid }
    else vToPrint
  else vToPrint

/-- The value-to-compare computation of one iteration of the `parseRange`
loop; `none` embeds the early `(nil, false)` return on a date-math error. -/
def rangeValueToCompare (env : ParserEnv) (field : String) (isDefault : Bool)
    (op : String) (v : JsonValue) : Option Expr :=
  let vToPrint := sprint v
  if isDefault = false then some (.literal vToPrint)
  else
    match env.table.getDateTimeType (resolveField env field) with
    | .dateTime64 | .dateTime =>
      match v with
      | .str dateTime =>
        if env.isoParses dateTime then
          some (.functionExpr (parseDateTimeStringFn env field)
            [.literal (sq ++ dateTime ++ sq)])
        else if op = "gte" ∨ op = "lte" ∨ op = "gt" ∨ op = "lt" then
          match env.dateMath (replaceAll vToPrint sq "") with
          | some rendered => some (.literal rendered)
          | none => none
        else some (.literal vToPrint)
      | .null => some (.literal "NULL")
      | _ => some (.literal vToPrint)
    | .invalid => some (.literal (rangeNumericLiteral vToPrint))

/-- The loop over the sorted per-field operator keys of `parseRange`;
`none` embeds the early `(nil, false)` return. -/
def rangeLoop (env : ParserEnv) (field : String) (vm : QueryMap) (isDefault : Bool) :
    List String → Option (List (Option Expr))
  | [] => some []
  | op :: ops =>
    let v := (lookupQM vm op).getD .null
    let finalLHS : Expr :=
      if isDefault then .columnRef field
      else .functionExpr "toUnixTimestamp64Milli" [.columnRef field]
    match rangeValueToCompare env field isDefault op v with
    | none => none
    | some valueToCompare =>
      match rangeLoop env field vm isDefault ops with
      | none => none
      | some rest =>
        if op = "gte" then some (some (.infixExpr finalLHS ">=" valueToCompare) :: rest)
        else if op = "lte" then some (some (.infixExpr finalLHS "<=" valueToCompare) :: rest)
        else if op = "gt" then some (some (.infixExpr finalLHS ">" valueToCompare) :: rest)
        else if op = "lt" then some (some (.infixExpr finalLHS "<" valueToCompare) :: rest)
        else some rest

/-- `parseRange` (query_parser.go:779). The per-field operator keys are
iterated in sorted order (`util.MapKeysSorted`). -/
def parseRange (env : ParserEnv) (qm : QueryMap) : SimpleQuery :=
  match qm with
  | [(field0, v)] =>
    let field := resolveField env field0
    match v with
    | .obj vm =>
      let isEpochMillis :=
        match lookupQM vm "format" with
        | some (.str s) => s == "epoch_millis"
        | _ => false
      let isDefault := !isEpochMillis
      let keysSorted := mapKeysSorted vm
      match rangeLoop env field vm isDefault keysSorted with
      | some stmts => newSimpleQueryWithFieldName (exprAnd stmts) true field
      | none => newSimpleQuery none false
    | _ => newSimpleQuery none false
  | _ => newSimpleQuery none false

/-! ## The recursive core of the parser (query_parser.go:278, 438, 405, 424)

`parseQueryMap` dispatches on the query keys; `parseBool` recurses through
`must`/`filter`/`should`/`must_not`; `iterateListOrDictAndParse` and
`parseQueryMapArray` iterate sub-query lists.  `parseConstantScore`
(query_parser.go:329) and `parseNested` (query_parser.go:738) are inlined
into the dispatch.  The mutual recursion is driven by an explicit fuel
counter; the Go recursion is structural on the JSON value, so any fuel
larger than the recursion depth gives the Go behaviour, and the result type
keeps fuel exhaustion (`out`) apart from an embedded Go panic (`panic`). -/

/-- Result of a fueled parse: `out` is fuel exhaustion (an artifact of the
embedding, never reached with sufficient fuel), `panic` is a Go panic,
`ok` a returned value. -/
inductive PResult (α : Type) where
  | out
  | panic
  | ok (val : α)

/-- Lift the panic embedding of the non-recursive parse functions. -/
def ofPanic {α : Type} : Option α → PResult α
  | some a => .ok a
  | none => .panic

/-- The keys of the `parseMap` dispatch table (query_parser.go:283). -/
def dispatchKeys : List String :=
  ["match_all", "match", "multi_match", "bool", "term", "terms", "query", "prefix",
   "nested", "match_phrase", "range", "exists", "ids", "constant_score", "wildcard",
   "query_string", "simple_query_string", "regexp", "geo_bounding_box"]

/-- `parseMetadata` (query_parser.go:243) removes every key other than
`query`, `bool`, `query_string`, `index_filter` from the map; `parseQueryMap`
performs this removal when the map has more than one key. -/
def stripMetadata (m : QueryMap) : QueryMap :=
  if m.length ≠ 1 then
    m.filter (fun kv =>
      kv.1 == "query" || kv.1 == "bool" || kv.1 == "query_string" || kv.1 == "index_filter")
  else m

mutual

/-- `parseQueryMap` (query_parser.go:278), fueled. -/
def parseQueryMapF (env : ParserEnv) : Nat → QueryMap → PResult SimpleQuery
  | 0, _ => .out
  | fuel + 1, m0 =>
    let m := stripMetadata m0
    parseQMLoopF env fuel m m

/-- The `for k, v := range queryMap` loop of `parseQueryMap`: dispatch on the
first recognized key whose value is a dict; values of other shapes and
unknown keys only produce warnings and the loop continues. -/
def parseQMLoopF (env : ParserEnv) : Nat → QueryMap → QueryMap → PResult SimpleQuery
  | 0, _, _ => .out
  | fuel + 1, whole, rest =>
    match rest with
    | [] =>
      if whole.isEmpty then .ok (newSimpleQuery none true)
      else .ok (newSimpleQuery none false)
    | (k, v) :: rest2 =>
      if dispatchKeys.contains k then
        match v with
        | .obj vm =>
          if k = "match_all" then .ok (parseMatchAll vm)
          else if k = "match" then ofPanic (parseMatch env false vm)
          else if k = "multi_match" then .ok (parseMultiMatch env vm)
          else if k = "bool" then parseBoolF env fuel vm
          else if k = "term" then .ok (parseTerm vm)
          else if k = "terms" then .ok (parseTerms vm)
          else if k = "query" then parseQueryMapF env fuel vm
          else if k = "prefix" then ofPanic (parsePrefix env vm)
          else if k = "nested" then
            match lookupQM vm "query" with
            | some (.obj q) => parseQueryMapF env fuel q
            | some _ => .ok (newSimpleQuery none false)
            | none => .ok (newSimpleQuery none false)
          else if k = "match_phrase" then ofPanic (parseMatch env true vm)
          else if k = "range" then .ok (parseRange env vm)
          else if k = "exists" then .ok (parseExists env vm)
          else if k = "ids" then ofPanic (parseIds env vm)
          else if k = "constant_score" then
            if (lookupQM vm "filter").isSome then parseBoolF env fuel vm
            else .ok (newSimpleQuery none false)
          else if k = "wildcard" then .ok (parseWildcard env vm)
          else if k = "query_string" then ofPanic (parseQueryString env vm)
          else if k = "simple_query_string" then ofPanic (parseQueryString env vm)
          else if k = "regexp" then .ok (parseRegexp vm)
          else if k = "geo_bounding_box" then ofPanic (parseGeoBoundingBox vm)
          else .ok (newSimpleQuery none false)
        | _ => parseQMLoopF env fuel whole rest2
      else parseQMLoopF env fuel whole rest2

/-- One optional clause group of `parseBool`: an absent key parses to no
statements. -/
def parseClauseF (env : ParserEnv) : Nat → Option JsonValue → PResult (List (Option Expr) × Bool)
  | 0, _ => .out
  | fuel + 1, v? =>
    match v? with
    | some v => iterateListOrDictAndParseF env fuel v
    | none => .ok ([], true)

/-- `parseBool` (query_parser.go:438), fueled. -/
def parseBoolF (env : ParserEnv) : Nat → QueryMap → PResult SimpleQuery
  | 0, _ => .out
  | fuel + 1, m =>
    match parseClauseF env fuel (lookupQM m "must") with
    | .out => .out
    | .panic => .panic
    | .ok (mustStmts, canParseMust) =>
      match parseClauseF env fuel (lookupQM m "filter") with
      | .out => .out
      | .panic => .panic
      | .ok (filterStmts, canParseFilter) =>
        let andStmts := mustStmts ++ filterStmts
        let canParse0 := canParseMust && canParseFilter
        let sql0 := exprAnd andStmts
        let msm0 : Int :=
          match lookupQM m "minimum_should_match" with
          | some (.num n) => n
          | _ => 0
        let msm1 : Int := if andStmts.length = 0 then 1 else msm0
        let msm : Int := if msm1 > 1 then 1 else msm1
        let shouldStep : PResult (Option Expr × Bool) :=
          match lookupQM m "should" with
          | some v =>
            if msm = 1 then
              match iterateListOrDictAndParseF env fuel v with
              | .out => .out
              | .panic => .panic
              | .ok (orSqls, canParseThis) =>
                let orSql := exprOr orSqls
                let canParse1 := canParse0 && canParseThis
                if andStmts.length = 0 then .ok (orSql, canParse1)
                else if orSql.isSome then .ok (exprAnd [sql0, orSql], canParse1)
                else .ok (sql0, canParse1)
            else .ok (sql0, canParse0)
          | none => .ok (sql0, canParse0)
        match shouldStep with
        | .out => .out
        | .panic => .panic
        | .ok (sql1, canParse1) =>
          match lookupQM m "must_not" with
          | none => .ok (newSimpleQuery sql1 canParse1)
          | some v =>
            match iterateListOrDictAndParseF env fuel v with
            | .out => .out
            | .panic => .panic
            | .ok (sqlNots, canParseThis) =>
              let canParse2 := canParse1 && canParseThis
              if sqlNots.length > 0 then
                let wrapped := sqlNots.map (fun s => s.map (fun e => Expr.prefixExpr "NOT" [e]))
                let orSql := exprOr wrapped
                .ok (newSimpleQuery (exprAnd [sql1, orSql]) canParse2)
              else .ok (newSimpleQuery sql1 canParse2)

/-- `iterateListOrDictAndParse` (query_parser.go:424), fueled. -/
def iterateListOrDictAndParseF (env : ParserEnv) : Nat → JsonValue →
    PResult (List (Option Expr) × Bool)
  | 0, _ => .out
  | fuel + 1, v =>
    match v with
    | .arr xs => parseQueryMapArrayF env fuel xs
    | .obj fs =>
      match parseQueryMapF env fuel fs with
      | .out => .out
      | .panic => .panic
      | .ok q => .ok ([q.whereClause], q.canParse)
    | _ => .ok ([], false)

/-- `parseQueryMapArray` (query_parser.go:405), fueled: one statement slot
per element, nil for elements that are not dicts (which also clear
`can_parse`). -/
def parseQueryMapArrayF (env : ParserEnv) : Nat → List JsonValue →
    PResult (List (Option Expr) × Bool)
  | 0, _ => .out
  | fuel + 1, xs =>
    match xs with
    | [] => .ok ([], true)
    | x :: rest =>
      match x with
      | .obj fs =>
        match parseQueryMapF env fuel fs with
        | .out => .out
        | .panic => .panic
        | .ok q =>
          match parseQueryMapArrayF env fuel rest with
          | .out => .out
          | .panic => .panic
          | .ok (stmts, canParse) => .ok (q.whereClause :: stmts, canParse && q.canParse)
      | _ =>
        match parseQueryMapArrayF env fuel rest with
        | .out => .out
        | .panic => .panic
        | .ok (stmts, _) => .ok (none :: stmts, false)

end

/-- A fuel budget that dominates the recursion depth of the parser on a
given map (one unit per call edge; every fifth edge at the latest strictly
shrinks the JSON argument). -/
def parseFuel (m : QueryMap) : Nat := 5 * jsizeO m + 10

/-- `parseQueryMap` at a sufficient fuel budget. -/
def parseQueryMap (env : ParserEnv) (m : QueryMap) : PResult SimpleQuery :=
  parseQueryMapF env (parseFuel m) m

/-! ## SchemaCheckPass (quesma/schema_transformer.go) -/

/-- `config.IndexConfiguration`: only the deprecated `TypeMappings` map is
read by the WHERE visitor. -/
structure IndexConfiguration where
  typeMappings : List (String × String) := []
  deriving DecidableEq, Repr

/-- `cfg map[string]config.IndexConfiguration`. -/
abbrev IndexConfigMap := List (String × IndexConfiguration)

/-- The `lhsValue`/`rhsValue` extraction of `WhereVisitor.VisitInfix`
(schema_transformer.go:24-47): the string value of a literal, the column
name of a column reference, empty otherwise. -/
def exprNameValue : Expr → String
  | .literal v => v
  | .columnRef c => c
  | _ => ""

/-- `strings.Trim(s, cutset)` for a one-character cutset. -/
def trimChar (s : String) (c : Char) : String :=
  { data := ((s.data.dropWhile (· = c)).reverse.dropWhile (· = c)).reverse }

/-- `getFromTable` (schema_transformer.go:134). -/
def getFromTable (fromTable : String) : String :=
  let ft :=
    if fromTable.data.any (· = '.') then
      trimChar { data := fromTable.data.dropWhile (fun c => c ≠ '.') } '.'
    else fromTable
  trimChar ft (Char.ofNat 34)

/-- `WhereVisitor.VisitInfix` and the identity visits of the other variants
(schema_transformer.go:16-124).  `VisitPrefixExpr`, `VisitFunction`,
`VisitArrayAccess` and the stubbed visits return the original node (the Go
code visits children but discards the results). -/
def whereVisit (cfg : IndexConfigMap) (tableName : String) : Expr → Expr
  | .literal v => .literal v
  | .infixExpr l op r =>
    let lhs := whereVisit cfg tableName l
    let rhs := whereVisit cfg tableName r
    let lhsValue := exprNameValue lhs
    let rhsValue := exprNameValue rhs
    if !(strContains rhsValue '/') then .infixExpr lhs op rhs
    else
      let mappedType :=
        (alookup (((alookup cfg tableName).getD {}).typeMappings) lhsValue).getD ""
      if mappedType ≠ "ip" then .infixExpr lhs op rhs
      else if lhsValue.length = 0 ∨ rhsValue.length = 0 then .infixExpr lhs op rhs
      else if op ≠ "=" ∧ op ≠ "iLIKE" then .infixExpr lhs op rhs
      else
        .functionExpr "isIPAddressInRange"
          [.functionExpr "CAST" [.literal lhsValue, .literal (sq ++ "String" ++ sq)],
           .literal (replaceAll rhsValue "%" "")]
  | .columnRef c => .columnRef c
  | .nestedProperty c p => .nestedProperty c p
  | e => e

/-- `SchemaCheckPass.applyIpTransformations` (schema_transformer.go:149). -/
def applyIpTransformations (cfg : IndexConfigMap) (q : Query) : Query :=
  match q.selectCommand.whereClause with
  | none => q
  | some w =>
    let fromTable := getFromTable q.tableName
    { q with selectCommand :=
        { q.selectCommand with whereClause := some (whereVisit cfg fromTable w) } }

/-- Whether the schema declares the field with type `point`
(`schema.TypePoint`); a missing entry has the zero type name. -/
def isPointField (sch : Schema) (name : String) : Bool :=
  match alookup sch.fields name with
  | some f => f.typeName = "point"
  | none => false

/-- The per-expression step of `GeoIpVisitor.VisitSelectCommand`
(schema_transformer.go:188): point-typed column references are expanded into
`::lat`/`::lon` pairs; everything else passes through the identity visitor. -/
def geoExpandExpr (sch : Schema) (e : Expr) : List Expr :=
  match e with
  | .columnRef c =>
    if isPointField sch c then [.columnRef (c ++ "::lat"), .columnRef (c ++ "::lon")]
    else [.columnRef c]
  | e => [e]

/-- `GeoIpVisitor.VisitSelectCommand` after the schema was found
(schema_transformer.go:188-237): only `columns` and `group_by` change. -/
def geoVisitSelect (sch : Schema) (e : SelectCommand) : SelectCommand :=
  { e with
    groupBy := e.groupBy.flatMap (geoExpandExpr sch)
    columns := e.columns.flatMap (geoExpandExpr sch) }

/-- `SchemaCheckPass.applyGeoTransformations` (schema_transformer.go:239). -/
def applyGeoTransformations (reg : SchemaRegistry) (q : Query) : Query :=
  match q.selectCommand.whereClause with
  | none => q
  | some _ =>
    let fromTable := getFromTable q.tableName
    match reg.findSchema fromTable with
    | none => q
    | some sch => { q with selectCommand := geoVisitSelect sch q.selectCommand }

/-- `SchemaCheckPass.Transform` (schema_transformer.go:253): per query, the
IP transformation followed by the geo transformation (the returned error is
always nil). -/
def schemaCheckTransform (cfg : IndexConfigMap) (reg : SchemaRegistry)
    (queries : List Query) : List Query :=
  queries.map (fun q => applyGeoTransformations reg (applyIpTransformations cfg q))

/-! ## ArrayTypeVisitor (quesma/schema_array_transformer.go) -/

/-- `ArrayTypeVisitor.dbColumnType` (schema_array_transformer.go:41). -/
def dbColumnType (t : Table) (fieldName : String) : String :=
  let f1 := trimSuffixStr fieldName ".keyword"
  let tableColumnName := replaceAll f1 "." "::"
  match alookup t.cols tableColumnName with
  | some col => col.typ
  | none => ""

/-! `ArrayTypeVisitor` expression visit (schema_array_transformer.go:58-256). -/

mutual

def arrayVisit (t : Table) : Expr → Expr
  | .literal v => .literal v
  | .infixExpr l op r =>
    let rewritten : Option Expr :=
      match l with
      | .columnRef c =>
        let dbType := dbColumnType t c
        if strStartsWith dbType "Array" then
          let opU := asciiUpper op
          if (opU = "ILIKE" ∨ opU = "LIKE") ∧ dbType = "Array(String)" then
            some (.functionExpr "arrayExists"
              [.lambdaExpr ["x"] (.infixExpr (.literal "x") opU (arrayVisit t r)),
               .columnRef c])
          else if op = "=" then
            some (.functionExpr "has" [.columnRef c, arrayVisit t r])
          else none
        else none
      | _ => none
    match rewritten with
    | some e2 => e2
    | none => .infixExpr (arrayVisit t l) op (arrayVisit t r)
  | .prefixExpr op args => .prefixExpr op (arrayVisitList t args)
  | .functionExpr name args =>
    let rewritten : Option Expr :=
      match args with
      | [.columnRef c] =>
        let dbType := dbColumnType t c
        if strStartsWith dbType "Array" ∧ name = "sumOrNull" ∧ dbType = "Array(Int64)" then
          some (.functionExpr name
            [.functionExpr "arrayReduce" [.literal (sq ++ name ++ sq), .columnRef c]])
        else none
      | _ => none
    match rewritten with
    | some e2 => e2
    | none => .functionExpr name (arrayVisitList t args)
  | .columnRef c => .columnRef c
  | .nestedProperty c p => .nestedProperty c p
  | .arrayAccess c i => .arrayAccess c (arrayVisit t i)
  | .multiFunction n args => .multiFunction n (arrayVisitList t args)
  | .tableRef n => .tableRef n
  | .aliased e a => .aliased (arrayVisit t e) a
  | .orderByExpr exprs d => .orderByExpr (arrayVisitList t exprs) d
  | .distinctExpr e => .distinctExpr (arrayVisit t e)
  | .lambdaExpr a b => .lambdaExpr a (arrayVisit t b)
  | .windowFunction n args pb ob =>
    .windowFunction n (arrayVisitList t args) (arrayVisitList t pb) (arrayVisit t ob)
  | .parenExpr args => .parenExpr (arrayVisitList t args)

def arrayVisitList (t : Table) : List Expr → List Expr
  | [] => []
  | e :: rest => arrayVisit t e :: arrayVisitList t rest

end

/-! Modelled from the spec: `model.GetUsedColumns` (missing from the provided
sources) collects the column references used in an expression. -/

mutual

def getUsedColumns : Expr → List String
  | .literal _ => []
  | .columnRef c => [c]
  | .tableRef _ => []
  | .infixExpr l _ r => getUsedColumns l ++ getUsedColumns r
  | .prefixExpr _ args => getUsedColumnsList args
  | .functionExpr _ args => getUsedColumnsList args
  | .multiFunction _ args => getUsedColumnsList args
  | .arrayAccess c i => c :: getUsedColumns i
  | .nestedProperty c _ => [c]
  | .aliased e _ => getUsedColumns e
  | .orderByExpr exprs _ => getUsedColumnsList exprs
  | .distinctExpr e => getUsedColumns e
  | .lambdaExpr _ b => getUsedColumns b
  | .windowFunction _ args pb ob =>
    getUsedColumnsList args ++ getUsedColumnsList pb ++ getUsedColumns ob
  | .parenExpr args => getUsedColumnsList args

def getUsedColumnsList : List Expr → List String
  | [] => []
  | e :: rest => getUsedColumns e ++ getUsedColumnsList rest

end

/-- `ArrayTypeVisitor.VisitSelectCommand`
(schema_array_transformer.go:174-244): nothing changes unless the query
references an array column; `order_by` is passed through unvisited. -/
def arrayVisitSelect (reg : SchemaRegistry) (findTable : String → Option Table)
    (tableName : String) (e : SelectCommand) : SelectCommand :=
  match reg.findSchema tableName with
  | none => e
  | some _ =>
    match findTable tableName with
    | none => e
    | some table =>
      let allColumns := e.columns.flatMap getUsedColumns ++
        (match e.whereClause with
         | some w => getUsedColumns w
         | none => [])
      let hasArrayColumn := allColumns.any (fun c => strStartsWith (dbColumnType table c) "Array")
      if !hasArrayColumn then e
      else
        { e with
          groupBy := e.groupBy.map (arrayVisit table)
          columns := e.columns.map (arrayVisit table)
          fromClause := e.fromClause.map (arrayVisit table)
          whereClause := e.whereClause.map (arrayVisit table) }

/-! ## Highlighter (`model` package, HighlightValue) -/

/-- `model.Highlighter`: per-column token sets plus tags. -/
structure Highlighter where
  tokens : List (String × List String)
  preTags : List String
  postTags : List String

/-- A match interval (`match{start, end}` in HighlightValue). -/
structure HMatch where
  start : Nat
  stop : Nat
  deriving DecidableEq, Repr

/-- `Highlighter.GetSortedTokens`: the tokens of a column, longest first. -/
def getSortedTokens (h : Highlighter) (columnName : String) : List String :=
  List.insertionSort (fun a b : String => b.length ≤ a.length)
    ((alookup h.tokens columnName).getD [])

/-- `strings.Index` over character lists: the first position where `pat`
occurs in `hay`. -/
def listIndexOf (hay pat : List Char) : Option Nat :=
  if pat.isPrefixOf hay then some 0
  else
    match hay with
    | [] => none
    | _ :: rest => (listIndexOf rest pat).map (· + 1)

/-- The per-token `for pos < length` search loop of `HighlightValue`,
driven by an explicit fuel counter (the Go loop advances `pos` by at least
one character per iteration, so any fuel above `lv.length` is enough and
the zero-fuel arm is never reached by the wrapper below). -/
def findMatchesTokF : Nat → List Char → List Char → Nat → List HMatch
  | 0, _, _, _ => []
  | fuel + 1, lv, tok, pos =>
    if tok.length = 0 ∨ lv.length ≤ pos then []
    else
      match listIndexOf (lv.drop pos) tok with
      | none => []
      | some idx =>
        let start := pos + idx
        let stop := start + tok.length
        ⟨start, stop⟩ :: findMatchesTokF fuel lv tok stop

/-- The per-token search loop at its sufficient fuel. -/
def findMatchesTok (lv tok : List Char) (pos : Nat) : List HMatch :=
  findMatchesTokF (lv.length + 1) lv tok pos

/-- All matches of all tokens (tokens in longest-first order; empty tokens
are skipped). -/
def findAllMatches (lv : List Char) (tokens : List String) : List HMatch :=
  tokens.flatMap (fun token => if token = "" then [] else findMatchesTok lv token.data 0)

/-- The overlapping-match merge loop of `HighlightValue`: on a start-sorted
list, a match starting at or before the end of the previous merged match
extends it.  Each iteration of the Go loop consumes one list entry, so the
fuel is the list length and the zero-fuel arm is never reached by the
wrapper below. -/
def mergeMsF : Nat → List HMatch → List HMatch
  | 0, _ => []
  | _ + 1, [] => []
  | _ + 1, [m] => [m]
  | fuel + 1, a :: b :: rest =>
    if b.start ≤ a.stop then
      mergeMsF fuel ({ start := a.start, stop := max b.stop a.stop } :: rest)
    else a :: mergeMsF fuel (b :: rest)

/-- The merge loop at its sufficient fuel. -/
def mergeMs (l : List HMatch) : List HMatch := mergeMsF l.length l

/-- Go slice `value[a:b]` over characters. -/
def sliceStr (value : String) (a b : Nat) : String :=
  { data := (value.data.drop a).take (b - a) }

/-- The raw matches found by `HighlightValue` for one cell. -/
def hlMatches (h : Highlighter) (columnName : String) (value : String) : List HMatch :=
  findAllMatches (value.data.map Char.toLower) (getSortedTokens h columnName)

/-- The merged matches of `HighlightValue`: sort by start, then merge. -/
def hlMerged (h : Highlighter) (columnName : String) (value : String) : List HMatch :=
  mergeMs (List.insertionSort (fun a b : HMatch => a.start ≤ b.start)
    (hlMatches h columnName value))

/-- `Highlighter.HighlightValue` (model package, part_004:62-126).  `none`
embeds the Go index panic on `PreTags[0]`/`PostTags[0]` when exactly one of
the two tag lists is empty and there are matches. -/
def highlightValue (h : Highlighter) (columnName : String) (value : String) :
    Option (List String) :=
  if h.preTags.length < 1 ∧ h.postTags.length < 1 then some []
  else
    if (hlMatches h columnName value).isEmpty then some []
    else
      match h.preTags, h.postTags with
      | preTag :: _, postTag :: _ =>
        some ((hlMerged h columnName value).map
          (fun m => preTag ++ sliceStr value m.start m.stop ++ postTag))
      | _, _ => none

/-- The claim reading of the highlighter, stated from the spec words: ALL
case-insensitive occurrences of every token are found (not only the
non-overlapping ones), then merged and wrapped exactly as the code does. -/
def specAllOccurrences (lv : List Char) (tok : List Char) : List HMatch :=
  (List.range (lv.length + 1)).filterMap (fun i =>
    if tok ≠ [] ∧ tok.isPrefixOf (lv.drop i) then some ⟨i, i + tok.length⟩ else none)

/-- The spec-reading highlighter used to compare against the code. -/
def specHighlightValue (h : Highlighter) (columnName : String) (value : String) :
    Option (List String) :=
  if h.preTags.length < 1 ∧ h.postTags.length < 1 then some []
  else
    let lv := value.data.map Char.toLower
    let ms := (getSortedTokens h columnName).flatMap
      (fun token => specAllOccurrences lv token.data)
    if ms.isEmpty then some []
    else
      match h.preTags, h.postTags with
      | preTag :: _, postTag :: _ =>
        some ((mergeMs (List.insertionSort (fun a b : HMatch => a.start ≤ b.start) ms)).map
          (fun m => preTag ++ sliceStr value m.start m.stop ++ postTag))
      | _, _ => none

/-! ## Claim C1: multi-table resolution in the runner (search.go) -/

/-- handleSearchCommon, lines 195-198 of search.go: when the pattern resolved
to more than one ClickHouse table, the runner warns and keeps only the slice
`sourcesClickhouse[1:2]`. -/
def narrowSourcesClickhouse (sourcesClickhouse : List String) : List String :=
  if sourcesClickhouse.length > 1 then (sourcesClickhouse.drop 1).take 1
  else sourcesClickhouse

/-- The table the `for _, resolvedTableName := range sourcesClickhouse` loop
of handleSearchCommon actually queries, after the narrowing above. -/
def tableQueried (sourcesClickhouse : List String) : Option String :=
  (narrowSourcesClickhouse sourcesClickhouse).head?

/-! ## Claim C8: async capacity guard (search.go) -/

/-- `asyncQueriesLimit` (search.go line 35). -/
def asyncQueriesLimit : Nat := 10000

/-- `asyncQueriesLimitBytes` (search.go line 36): 1024 * 1024 * 500. -/
def asyncQueriesLimitBytes : Nat := 1024 * 1024 * 500

/-- `AsyncRequestResult`: the embedding keeps the stored body as a byte
list (its length is what the capacity guard sums). -/
structure AsyncRequestResult where
  responseBody : List Nat
  deriving DecidableEq, Repr

/-- The `AsyncRequestStorage` concurrent map, as a snapshot. -/
structure AsyncRequestStorage where
  entries : List (String × AsyncRequestResult)
  deriving DecidableEq, Repr

/-- `AsyncRequestStorage.Size()`. -/
def AsyncRequestStorage.size (st : AsyncRequestStorage) : Nat := st.entries.length

/-- `QueryRunner.asyncQueriesCumulatedBodySize` (search.go). -/
def asyncQueriesCumulatedBodySize (st : AsyncRequestStorage) : Nat :=
  (st.entries.map (fun kv => kv.2.responseBody.length)).sum

/-- `QueryRunner.reachedQueriesLimit` (search.go lines 438-446). -/
def reachedQueriesLimit (st : AsyncRequestStorage) : Bool :=
  if st.size < asyncQueriesLimit && asyncQueriesCumulatedBodySize st < asyncQueriesLimitBytes then
    false
  else
    true

/-- Outcome of the guard at the top of `searchWorker`. -/
inductive WorkerOutcome where
  | rejected (err : String)
  | ranDbQuery
  deriving DecidableEq, Repr

/-- `QueryRunner.searchWorker` admission decision (search.go lines 616-632):
for an async request the capacity guard runs first and, when it fires, the
error is pushed and no database work happens. -/
def searchWorkerGate (st : AsyncRequestStorage) (isAsync : Bool) : WorkerOutcome :=
  if isAsync then
    if reachedQueriesLimit st then .rejected "too many async queries"
    else .ranDbQuery
  else .ranDbQuery

/-! ## Concrete fixtures used by the claim theorems and witnesses -/

/-- A concrete translator environment over a table with no columns and an
empty schema registry. -/
def envSimple : ParserEnv :=
  { table := { name := "logs", cols := [] }
    registry := { schemas := [] }
    isoParses := fun _ => false
    dateMath := fun _ => none
    luceneTranslate := fun _ _ => .literal "false" }

/-- A translator environment whose table has a `DateTime64` timestamp column
and whose ISO-8601 oracle accepts every string. -/
def c4Env : ParserEnv :=
  { table := { name := "logs",
               cols := [("timestamp", { name := "timestamp", typ := "DateTime64(3)" })] }
    registry := { schemas := [] }
    isoParses := fun _ => true
    dateMath := fun _ => none
    luceneTranslate := fun _ _ => .literal "false" }

/-- A table with one `Array(String)` column, as in the spec's S4 scenario. -/
def tagsTable : Table :=
  { name := "logs", cols := [("tags", { name := "tags", typ := "Array(String)" })] }

def s4Registry : SchemaRegistry := { schemas := [("logs", { fields := [], aliases := [] })] }

def s4FindTable : String → Option Table := fun n => if n = "logs" then some tagsTable else none

/-- The S4 select before the array transformation. -/
def s4Select : SelectCommand :=
  { columns := [.columnRef "tags"], groupBy := [], orderBy := []
    fromClause := some (.tableRef "logs")
    whereClause := some (.infixExpr (.columnRef "tags") "=" (.literal (sq ++ "prod" ++ sq))) }

/-- The S4 select after the array transformation. -/
def s4SelectOut : SelectCommand :=
  { columns := [.columnRef "tags"], groupBy := [], orderBy := []
    fromClause := some (.tableRef "logs")
    whereClause := some (.functionExpr "has" [.columnRef "tags", .literal (sq ++ "prod" ++ sq)]) }

def c7Field : SchemaField :=
  { propertyName := "location", internalPropertyName := "location", typeName := "point" }

/-- A registry with one point-typed field, for the C7 witness. -/
def c7Reg : SchemaRegistry :=
  { schemas := [("logs", { fields := [("location", c7Field)], aliases := [] })] }

def c7Cfg : IndexConfigMap := [("logs", { typeMappings := [("client_ip", "ip")] })]

/-- A query carrying both an ip-typed predicate and a point-typed column. -/
def c7Query : Query :=
  { tableName := "logs"
    selectCommand :=
      { columns := [.columnRef "location"]
        groupBy := [.columnRef "location"]
        orderBy := []
        fromClause := some (.tableRef "logs")
        whereClause := some (.infixExpr (.columnRef "client_ip") "="
          (.literal (sq ++ "10.0.0.0/8" ++ sq))) } }

/-- A highlighter with one token and one tag pair. -/
def hl9 : Highlighter :=
  { tokens := [("col", ["aa"])], preTags := ["<b>"], postTags := ["</b>"] }

/-- `strings.HasSuffix`. -/
def strEndsWith (s suffix0 : String) : Bool :=
  List.isPrefixOf suffix0.data.reverse s.data.reverse

/-- The sanity condition on a schema registry that the geo transformation
relies on: no field whose name ends in the internal `::lat`/`::lon` suffixes
is itself point-typed. -/
def NoPointSuffixFields (reg : SchemaRegistry) : Prop :=
  ∀ e ∈ reg.schemas, ∀ f ∈ e.2.fields,
    f.2.typeName = "point" →
      strEndsWith f.1 "::lat" = false ∧ strEndsWith f.1 "::lon" = false

instance (reg : SchemaRegistry) : Decidable (NoPointSuffixFields reg) :=
  inferInstanceAs (Decidable (∀ e ∈ reg.schemas, ∀ f ∈ e.2.fields,
    f.2.typeName = "point" →
      strEndsWith f.1 "::lat" = false ∧ strEndsWith f.1 "::lon" = false))

/-! ## Helper lemmas: association lists and string suffixes -/

theorem strEndsWith_append (c suffix0 : String) :
    strEndsWith (c ++ suffix0) suffix0 = true := by
  simp only [strEndsWith, String.data_append, List.reverse_append]
  exact List.isPrefixOf_iff_prefix.mpr (List.prefix_append _ _)

theorem alookup_mem {α : Type} {m : List (String × α)} {k : String} {v : α}
    (h : alookup m k = some v) : (k, v) ∈ m := by
  induction m with
  | nil => simp [alookup] at h
  | cons x rest ih =>
    obtain ⟨k0, v0⟩ := x
    by_cases he : k0 = k
    · simp [alookup, he] at h
      simp [h, he]
    · simp [alookup, he] at h
      exact List.mem_cons_of_mem _ (ih h)

/-! ## Helper lemmas: the byte-wise string order is a total order -/

theorem lexLe_total : ∀ as bs : List Char, lexLe as bs = true ∨ lexLe bs as = true
  | [], _ => Or.inl rfl
  | _ :: _, [] => Or.inr rfl
  | a :: as, b :: bs => by
    by_cases h1 : a < b
    · left; simp [lexLe, h1]
    · by_cases h2 : b < a
      · right; simp [lexLe, h1, h2]
      · rcases lexLe_total as bs with h | h
        · left; simp [lexLe, h1, h2, h]
        · right; simp [lexLe, h1, h2, h]

theorem lexLe_trans : ∀ as bs cs : List Char,
    lexLe as bs = true → lexLe bs cs = true → lexLe as cs = true
  | [], _, _ => by intro _ _; rfl
  | _ :: _, [], _ => by intro h _; simp [lexLe] at h
  | _ :: _, _ :: _, [] => by intro _ h; simp [lexLe] at h
  | a :: as, b :: bs, c :: cs => by
    intro h1 h2
    simp only [lexLe] at h1 h2 ⊢
    by_cases hab : a < b
    · by_cases hbc : b < c
      · simp [lt_trans hab hbc]
      · by_cases hcb : c < b
        · simp [hbc, hcb] at h2
        · have hbceq : b = c := le_antisymm (not_lt.mp hcb) (not_lt.mp hbc)
          subst hbceq
          simp [hab]
    · by_cases hba : b < a
      · simp [hab, hba] at h1
      · have habe : a = b := le_antisymm (not_lt.mp hba) (not_lt.mp hab)
        subst habe
        simp only [lt_irrefl, if_false] at h1
        by_cases hac : a < c
        · simp [hac]
        · by_cases hca : c < a
          · simp [hac, hca] at h2
          · have hace : a = c := le_antisymm (not_lt.mp hca) (not_lt.mp hac)
            subst hace
            simp only [lt_irrefl, if_false] at h2 ⊢
            exact lexLe_trans as bs cs h1 h2

theorem lexLe_antisymm : ∀ as bs : List Char,
    lexLe as bs = true → lexLe bs as = true → as = bs
  | [], [] => by intro _ _; rfl
  | [], _ :: _ => by intro _ h; simp [lexLe] at h
  | _ :: _, [] => by intro h _; simp [lexLe] at h
  | a :: as, b :: bs => by
    intro h1 h2
    by_cases hab : a < b
    · simp [lexLe, hab, lt_asymm hab] at h2
    · by_cases hba : b < a
      · simp [lexLe, hab, hba] at h1
      · have habe : a = b := le_antisymm (not_lt.mp hba) (not_lt.mp hab)
        subst habe
        simp only [lexLe, lt_irrefl, if_false] at h1 h2
        rw [lexLe_antisymm as bs h1 h2]

instance : IsTotal String strLeProp := ⟨fun a b => lexLe_total a.data b.data⟩

instance : IsTrans String strLeProp := ⟨fun a b c => lexLe_trans a.data b.data c.data⟩

instance : IsAntisymm String strLeProp :=
  ⟨fun a b h1 h2 => by
    obtain ⟨da⟩ := a
    obtain ⟨db⟩ := b
    cases lexLe_antisymm da db h1 h2
    rfl⟩

theorem mapKeysSorted_congr {vm1 vm2 : QueryMap}
    (p : (vm1.map Prod.fst).Perm (vm2.map Prod.fst)) :
    mapKeysSorted vm1 = mapKeysSorted vm2 :=
  List.eq_of_perm_of_sorted
    ((List.perm_insertionSort _ _).trans (p.trans (List.perm_insertionSort _ _).symm))
    (List.sorted_insertionSort _ _) (List.sorted_insertionSort _ _)

theorem mapKeysSorted_eq_of_perm {vm : QueryMap} {ks : List String}
    (p : (vm.map Prod.fst).Perm ks) (hs : List.Sorted strLeProp ks) :
    mapKeysSorted vm = ks :=
  List.eq_of_perm_of_sorted ((List.perm_insertionSort _ _).trans p)
    (List.sorted_insertionSort _ _) hs

theorem lookupQM_perm (k : String) {vm1 vm2 : QueryMap} (p : vm1.Perm vm2) :
    (vm1.map Prod.fst).Nodup → lookupQM vm1 k = lookupQM vm2 k := by
  induction p with
  | nil => intro _; rfl
  | cons x p ih =>
    intro nd
    obtain ⟨kx, vx⟩ := x
    simp only [List.map_cons, List.nodup_cons] at nd
    by_cases h : kx = k <;> simp [lookupQM, h, ih nd.2]
  | swap x y l =>
    intro nd
    obtain ⟨kx, vx⟩ := x
    obtain ⟨ky, vy⟩ := y
    simp only [List.map_cons, List.nodup_cons] at nd
    have hne : ky ≠ kx := fun he => nd.1 (he ▸ List.mem_cons_self _ _)
    by_cases h1 : ky = k
    · by_cases h2 : kx = k
      · exact absurd (h1.trans h2.symm) hne
      · simp [lookupQM, h1, h2]
    · by_cases h2 : kx = k <;> simp [lookupQM, h1, h2]
  | trans p1 p2 ih1 ih2 =>
    intro nd
    exact (ih1 nd).trans (ih2 ((p1.map Prod.fst).nodup_iff.mp nd))

theorem rangeLoop_congr (env : ParserEnv) (field : String) {vm1 vm2 : QueryMap}
    (hl : ∀ k, lookupQM vm1 k = lookupQM vm2 k) :
    ∀ (isDefault : Bool) (ops : List String),
      rangeLoop env field vm1 isDefault ops = rangeLoop env field vm2 isDefault ops := by
  intro isDefault ops
  induction ops with
  | nil => rfl
  | cons op ops ih => simp only [rangeLoop, hl op, ih]

/-! ## Helper lemmas: idempotence of the schema transformation passes -/

theorem isPointField_suffix_false {reg : SchemaRegistry} {tn : String} {sch : Schema}
    (hreg : NoPointSuffixFields reg) (hfind : reg.findSchema tn = some sch) (c : String) :
    isPointField sch (c ++ "::lat") = false ∧ isPointField sch (c ++ "::lon") = false := by
  have hmem : (tn, sch) ∈ reg.schemas := alookup_mem hfind
  constructor
  · cases hal : alookup sch.fields (c ++ "::lat") with
    | none => simp [isPointField, hal]
    | some f =>
      simp only [isPointField, hal]
      by_cases hp : f.typeName = "point"
      · have hsuf := (hreg (tn, sch) hmem (c ++ "::lat", f) (alookup_mem hal) hp).1
        rw [strEndsWith_append] at hsuf
        exact absurd hsuf (by simp)
      · simp [hp]
  · cases hal : alookup sch.fields (c ++ "::lon") with
    | none => simp [isPointField, hal]
    | some f =>
      simp only [isPointField, hal]
      by_cases hp : f.typeName = "point"
      · have hsuf := (hreg (tn, sch) hmem (c ++ "::lon", f) (alookup_mem hal) hp).2
        rw [strEndsWith_append] at hsuf
        exact absurd hsuf (by simp)
      · simp [hp]

theorem whereVisit_idem (cfg : IndexConfigMap) (tn : String) :
    ∀ e : Expr, whereVisit cfg tn (whereVisit cfg tn e) = whereVisit cfg tn e
  | .literal v => rfl
  | .columnRef c => rfl
  | .tableRef n => rfl
  | .nestedProperty c p => rfl
  | .prefixExpr op args => rfl
  | .functionExpr n args => rfl
  | .multiFunction n args => rfl
  | .arrayAccess c i => rfl
  | .aliased e a => rfl
  | .orderByExpr es d => rfl
  | .distinctExpr e => rfl
  | .lambdaExpr a b => rfl
  | .windowFunction n a p o => rfl
  | .parenExpr args => rfl
  | .infixExpr l op r => by
    have IHl := whereVisit_idem cfg tn l
    have IHr := whereVisit_idem cfg tn r
    by_cases h1 : strContains (exprNameValue (whereVisit cfg tn r)) '/' = true <;>
    by_cases h2 : (alookup ((alookup cfg tn).getD {}).typeMappings
        (exprNameValue (whereVisit cfg tn l))).getD "" = "ip" <;>
    by_cases h3 : ((exprNameValue (whereVisit cfg tn l)).length = 0 ∨
        (exprNameValue (whereVisit cfg tn r)).length = 0) <;>
    by_cases h4 : op = "=" <;>
    by_cases h5 : op = "iLIKE" <;>
    simp [whereVisit, IHl, IHr, h1, h2, h3, h4, h5]

theorem geoExpandExpr_idem (sch : Schema)
    (hs : ∀ c, isPointField sch (c ++ "::lat") = false ∧ isPointField sch (c ++ "::lon") = false) :
    ∀ e : Expr, (geoExpandExpr sch e).flatMap (geoExpandExpr sch) = geoExpandExpr sch e
  | .literal v => by simp [geoExpandExpr]
  | .columnRef c => by
    by_cases hp : isPointField sch c = true <;>
      simp [geoExpandExpr, hp, (hs c).1, (hs c).2]
  | .tableRef n => by simp [geoExpandExpr]
  | .nestedProperty c p => by simp [geoExpandExpr]
  | .prefixExpr op args => by simp [geoExpandExpr]
  | .functionExpr n args => by simp [geoExpandExpr]
  | .multiFunction n args => by simp [geoExpandExpr]
  | .arrayAccess c i => by simp [geoExpandExpr]
  | .aliased e a => by simp [geoExpandExpr]
  | .orderByExpr es d => by simp [geoExpandExpr]
  | .distinctExpr e => by simp [geoExpandExpr]
  | .lambdaExpr a b => by simp [geoExpandExpr]
  | .infixExpr l op r => by simp [geoExpandExpr]
  | .windowFunction n a p o => by simp [geoExpandExpr]
  | .parenExpr args => by simp [geoExpandExpr]

theorem geoExpandList_idem (sch : Schema)
    (hs : ∀ c, isPointField sch (c ++ "::lat") = false ∧ isPointField sch (c ++ "::lon") = false)
    (es : List Expr) :
    (es.flatMap (geoExpandExpr sch)).flatMap (geoExpandExpr sch) =
      es.flatMap (geoExpandExpr sch) := by
  induction es with
  | nil => rfl
  | cons e rest ih =>
    simp only [List.flatMap_cons, List.flatMap_append, geoExpandExpr_idem sch hs e, ih]

theorem geoVisitSelect_idem (sch : Schema)
    (hs : ∀ c, isPointField sch (c ++ "::lat") = false ∧ isPointField sch (c ++ "::lon") = false)
    (e : SelectCommand) :
    geoVisitSelect sch (geoVisitSelect sch e) = geoVisitSelect sch e := by
  simp [geoVisitSelect, geoExpandList_idem sch hs]

theorem transformQuery_idem (cfg : IndexConfigMap) (reg : SchemaRegistry)
    (hreg : NoPointSuffixFields reg) (q : Query) :
    applyGeoTransformations reg (applyIpTransformations cfg
        (applyGeoTransformations reg (applyIpTransformations cfg q))) =
      applyGeoTransformations reg (applyIpTransformations cfg q) := by
  obtain ⟨sc, tn⟩ := q
  cases hw : sc.whereClause with
  | none =>
    simp [applyIpTransformations, applyGeoTransformations, hw]
  | some w =>
    simp only [applyIpTransformations, hw]
    cases hf : reg.findSchema (getFromTable tn) with
    | none =>
      simp only [applyGeoTransformations, hf, hw]
      simp [applyIpTransformations, applyGeoTransformations, hf, whereVisit_idem]
    | some sch =>
      have hs := fun c => isPointField_suffix_false hreg hf c
      simp only [applyGeoTransformations, hf, hw]
      simp [applyIpTransformations, applyGeoTransformations, hf, hw, geoVisitSelect,
        whereVisit_idem, geoExpandList_idem sch hs]

/-! ## Helper lemmas: the highlighter merge loop -/

instance : IsTotal HMatch (fun a b : HMatch => a.start ≤ b.start) :=
  ⟨fun a b => Nat.le_total a.start b.start⟩

instance : IsTrans HMatch (fun a b : HMatch => a.start ≤ b.start) :=
  ⟨fun _ _ _ => Nat.le_trans⟩

instance : IsTotal String (fun a b : String => b.length ≤ a.length) :=
  ⟨fun a b => Nat.le_total b.length a.length⟩

instance : IsTrans String (fun a b : String => b.length ≤ a.length) :=
  ⟨fun _ _ _ h1 h2 => Nat.le_trans h2 h1⟩

theorem mergeMsF_head : ∀ (fuel : Nat) (l : List HMatch) (m : HMatch), l.length < fuel →
    ∃ m2 t, mergeMsF fuel (m :: l) = m2 :: t ∧ m2.start = m.start
  | 0, _, _, h => absurd h (Nat.not_lt_zero _)
  | _ + 1, [], m, _ => ⟨m, [], rfl, rfl⟩
  | fuel + 1, b :: rest, a, h => by
    by_cases hb : b.start ≤ a.stop
    · obtain ⟨m2, t, he, hs⟩ :=
        mergeMsF_head fuel rest ⟨a.start, max b.stop a.stop⟩ (by simp at h; omega)
      exact ⟨m2, t, by simp [mergeMsF, hb, he], hs⟩
    · exact ⟨a, mergeMsF fuel (b :: rest), by simp [mergeMsF, hb], rfl⟩

theorem mergeMsF_chain : ∀ (fuel : Nat) (l : List HMatch), l.length ≤ fuel →
    List.Chain' (fun a b : HMatch => a.start ≤ b.start) l →
    List.Chain' (fun a b : HMatch => a.stop < b.start) (mergeMsF fuel l)
  | 0, l, h, _ => by
    have hl : l = [] := List.eq_nil_of_length_eq_zero (Nat.le_zero.mp h)
    subst hl
    simp [mergeMsF]
  | _ + 1, [], _, _ => by simp [mergeMsF]
  | _ + 1, [m], _, _ => by simp [mergeMsF]
  | fuel + 1, a :: b :: rest, h, hc => by
    have hlen : rest.length + 1 ≤ fuel := by simp at h; omega
    rw [List.chain'_cons] at hc
    by_cases hb : b.start ≤ a.stop
    · have hc2 : List.Chain' (fun x y : HMatch => x.start ≤ y.start)
          ({ start := a.start, stop := max b.stop a.stop } :: rest) := by
        cases rest with
        | nil => simp
        | cons c rest2 =>
          have h2 := List.chain'_cons.mp hc.2
          exact List.chain'_cons.mpr ⟨le_trans hc.1 h2.1, h2.2⟩
      have hrec := mergeMsF_chain fuel ({ start := a.start, stop := max b.stop a.stop } :: rest)
        (by simpa using hlen) hc2
      simpa [mergeMsF, hb] using hrec
    · have tlchain := mergeMsF_chain fuel (b :: rest) (by simpa using hlen) hc.2
      obtain ⟨m2, t, he, hs⟩ := mergeMsF_head fuel rest b (by omega)
      rw [show mergeMsF (fuel + 1) (a :: b :: rest) = a :: mergeMsF fuel (b :: rest) from
        by simp [mergeMsF, hb]]
      rw [he] at tlchain ⊢
      refine List.chain'_cons.mpr ⟨?_, tlchain⟩
      rw [hs]
      omega

theorem mergeMs_chain (l : List HMatch)
    (hc : List.Chain' (fun a b : HMatch => a.start ≤ b.start) l) :
    List.Chain' (fun a b : HMatch => a.stop < b.start) (mergeMs l) :=
  mergeMsF_chain l.length l (le_refl _) hc

/-! ## Claim C1 -/

/-- Claim C1, counterexample: with two resolved tables the table actually
queried is `table2`, the second element, not the first as the spec says. -/
theorem C1_counterexample :
    tableQueried ["table1", "table2"] = some "table2" ∧
    tableQueried ["table1", "table2"] ≠ some "table1" := by
  constructor
  · rfl
  · decide

/-- Claim C1 (amended): when the index pattern resolves to two or more
ClickHouse tables, `handleSearchCommon` keeps the slice
`sourcesClickhouse[1:2]`, so the table actually queried is the second
element of the resolved list, not the first. -/
theorem C1_amended (sources : List String) (h : 2 ≤ sources.length) :
    tableQueried sources = sources[1]? := by
  match sources with
  | a :: b :: rest =>
    simp [tableQueried, narrowSourcesClickhouse]
  | [] => simp at h
  | [a] => simp at h

/-- Claim C1, witness: the amended theorem at a concrete two-table list. -/
theorem C1_witness :
    2 ≤ (["table1", "table2"] : List String).length ∧
    tableQueried ["table1", "table2"] = (["table1", "table2"] : List String)[1]? :=
  ⟨by decide, C1_amended ["table1", "table2"] (by decide)⟩

/-! ## Claim C2 -/

/-- Claim C2, counterexample: a bool query with two `must_not` term clauses
parses to the two negations joined by `OR` (query_parser.go line 485 calls
`model.Or`), and not to the `AND` combination the claim states. -/
theorem C2_counterexample :
    parseQueryMap envSimple [("bool", .obj [("must_not", .arr
        [.obj [("term", .obj [("a", .str "1")])],
         .obj [("term", .obj [("b", .str "2")])]])])] =
      .ok (newSimpleQuery (some (.infixExpr
        (.prefixExpr "NOT" [.infixExpr (.columnRef "a") "=" (.literal (sq ++ "1" ++ sq))])
        "OR"
        (.prefixExpr "NOT" [.infixExpr (.columnRef "b") "=" (.literal (sq ++ "2" ++ sq))]))) true) ∧
    parseQueryMap envSimple [("bool", .obj [("must_not", .arr
        [.obj [("term", .obj [("a", .str "1")])],
         .obj [("term", .obj [("b", .str "2")])]])])] ≠
      .ok (newSimpleQuery (some (.infixExpr
        (.prefixExpr "NOT" [.infixExpr (.columnRef "a") "=" (.literal (sq ++ "1" ++ sq))])
        "AND"
        (.prefixExpr "NOT" [.infixExpr (.columnRef "b") "=" (.literal (sq ++ "2" ++ sq))]))) true) := by
  refine ⟨rfl, fun h => ?_⟩
  have h2 := (show
    parseQueryMap envSimple [("bool", .obj [("must_not", .arr
        [.obj [("term", .obj [("a", .str "1")])],
         .obj [("term", .obj [("b", .str "2")])]])])] =
      .ok (newSimpleQuery (some (.infixExpr
        (.prefixExpr "NOT" [.infixExpr (.columnRef "a") "=" (.literal (sq ++ "1" ++ sq))])
        "OR"
        (.prefixExpr "NOT" [.infixExpr (.columnRef "b") "=" (.literal (sq ++ "2" ++ sq))]))) true)
    from rfl).symm.trans h
  simp only [newSimpleQuery] at h2
  injection h2 with h3
  injection h3 with h4 h5 h6
  injection h4 with h7
  injection h7 with h8 h9 h10
  exact absurd h9 (by decide)

/-- Claim C2 (amended): in `parseBool`, `must` and `filter` statements are
combined with AND; `should` is OR-ed in only when the effective
`minimum_should_match` equals 1 — the value defaults to 0, is forced to 1
when there are no must/filter statements, and values above 1 are clamped to
1 — so with must/filter statements present and no explicit
`minimum_should_match` the `should` clauses are dropped entirely; and each
`must_not` clause is wrapped in `NOT` with the negations combined with OR
(not AND), the groups then being AND-ed together. -/
theorem C2_amended (env : ParserEnv) (fuel : Nat) (m : QueryMap)
    (mustStmts filterStmts : List (Option Expr)) (cM cF : Bool)
    (hMust : parseClauseF env fuel (lookupQM m "must") = .ok (mustStmts, cM))
    (hFilter : parseClauseF env fuel (lookupQM m "filter") = .ok (filterStmts, cF)) :
    (lookupQM m "minimum_should_match" = none → lookupQM m "should" = none →
      lookupQM m "must_not" = none →
      parseBoolF env (fuel + 1) m =
        .ok (newSimpleQuery (exprAnd (mustStmts ++ filterStmts)) (cM && cF))) ∧
    (∀ v sqlNots cN, lookupQM m "minimum_should_match" = none →
      lookupQM m "should" = none → lookupQM m "must_not" = some v →
      iterateListOrDictAndParseF env fuel v = .ok (sqlNots, cN) →
      sqlNots.length > 0 →
      parseBoolF env (fuel + 1) m =
        .ok (newSimpleQuery
          (exprAnd [exprAnd (mustStmts ++ filterStmts),
            exprOr (sqlNots.map (Option.map (fun e => Expr.prefixExpr "NOT" [e])))])
          ((cM && cF) && cN))) ∧
    (∀ v, lookupQM m "minimum_should_match" = none → lookupQM m "should" = some v →
      lookupQM m "must_not" = none → (mustStmts ++ filterStmts).length ≠ 0 →
      parseBoolF env (fuel + 1) m =
        .ok (newSimpleQuery (exprAnd (mustStmts ++ filterStmts)) (cM && cF))) ∧
    (∀ v n orSqls cS o, lookupQM m "should" = some v →
      lookupQM m "minimum_should_match" = some (.num n) → n > 1 →
      lookupQM m "must_not" = none → (mustStmts ++ filterStmts).length ≠ 0 →
      iterateListOrDictAndParseF env fuel v = .ok (orSqls, cS) →
      exprOr orSqls = some o →
      parseBoolF env (fuel + 1) m =
        .ok (newSimpleQuery (exprAnd [exprAnd (mustStmts ++ filterStmts), some o])
          ((cM && cF) && cS))) := by
  refine ⟨?_, ?_, ?_, ?_⟩
  · intro hmsm hS hN
    simp [parseBoolF, hMust, hFilter, hmsm, hS, hN]
  · intro v sqlNots cN hmsm hS hN hIter hLen
    simp [parseBoolF, hMust, hFilter, hmsm, hS, hN, hIter, hLen]
  · intro v hmsm hS hN hLen
    simp only [parseBoolF, hMust, hFilter]
    rw [hmsm, hS, hN]
    split
    · next heq =>
      simp at heq
      simp only [if_neg hLen] at heq
      simp at heq
    · next heq =>
      simp at heq
      simp only [if_neg hLen] at heq
      simp at heq
    · next sql1 cp1 heq =>
      simp at heq
      simp only [if_neg hLen] at heq
      simp at heq
      obtain ⟨hq1, hq2⟩ := heq
      subst hq1
      subst hq2
      rfl
  · intro v n orSqls cS o hS hmsm hn hN hLen hIter hOr
    simp only [parseBoolF, hMust, hFilter]
    rw [hmsm, hS, hN]
    split
    · next heq =>
      simp [hIter, hOr] at heq
      simp only [if_neg hLen, if_pos hn] at heq
      simp at heq
    · next heq =>
      simp [hIter, hOr] at heq
      simp only [if_neg hLen, if_pos hn] at heq
      simp at heq
    · next sql1 cp1 heq =>
      simp [hIter, hOr] at heq
      simp only [if_neg hLen, if_pos hn] at heq
      simp at heq
      obtain ⟨hq1, hq2⟩ := heq
      subst hq1
      subst hq2
      rfl

/-- Claim C2, witness: the amended theorem's must_not component at the
counterexample input, at fuel 20. -/
theorem C2_witness :
    parseBoolF envSimple 21 [("must_not", .arr
        [.obj [("term", .obj [("a", .str "1")])],
         .obj [("term", .obj [("b", .str "2")])]])] =
      .ok (newSimpleQuery
        (exprAnd [exprAnd ([] ++ []),
          exprOr ([some (.infixExpr (.columnRef "a") "=" (.literal (sq ++ "1" ++ sq))),
            some (.infixExpr (.columnRef "b") "=" (.literal (sq ++ "2" ++ sq)))].map
              (Option.map (fun e => Expr.prefixExpr "NOT" [e])))])
        ((true && true) && true)) :=
  (C2_amended envSimple 20 [("must_not", .arr
        [.obj [("term", .obj [("a", .str "1")])],
         .obj [("term", .obj [("b", .str "2")])]])] [] [] true true rfl rfl).2.1
    (.arr [.obj [("term", .obj [("a", .str "1")])],
           .obj [("term", .obj [("b", .str "2")])]])
    [some (.infixExpr (.columnRef "a") "=" (.literal (sq ++ "1" ++ sq))),
     some (.infixExpr (.columnRef "b") "=" (.literal (sq ++ "2" ++ sq)))]
    true rfl rfl rfl rfl (by decide)

/-! ## Claim C3 -/

/-- Claim C3: the parser is not total — the body `{"prefix": {"f": {}}}`
drives `parsePrefix` (query_parser.go:672) into an unchecked type assertion
`vCasted["value"].(string)` on a missing key, a Go panic, where the spec
promises `can_parse = false` instead of an exception. -/
theorem C3_parsePrefix_panics :
    parseQueryMap envSimple [("prefix", .obj [("f", .obj [])])] = .panic := by rfl

/-! ## Claim C4 -/

/-- Claim C4: a range query over a field whose column type is `DateTime64`,
with ISO-8601 `gte` and `lte` strings and any `format` other than
`epoch_millis`, parses to the conjunction
`field >= parseDateTime64BestEffort(gte) AND field <= parseDateTime64BestEffort(lte)`
with `can_parse = true`; the `format` key itself is ignored. -/
theorem C4_range_datetime64 (env : ParserEnv) (field0 f g l : String) (vm : QueryMap)
    (hperm : (vm.map Prod.fst).Perm ["format", "gte", "lte"])
    (hfmt : lookupQM vm "format" = some (.str f))
    (hg : lookupQM vm "gte" = some (.str g))
    (hl : lookupQM vm "lte" = some (.str l))
    (hf : f ≠ "epoch_millis")
    (hres : resolveField env field0 = field0)
    (hdt : env.table.getDateTimeType field0 = .dateTime64)
    (hgiso : env.isoParses g = true)
    (hliso : env.isoParses l = true) :
    parseRange env [(field0, .obj vm)] =
      newSimpleQueryWithFieldName
        (some (.infixExpr
          (.infixExpr (.columnRef field0) ">="
            (.functionExpr "parseDateTime64BestEffort" [.literal (sq ++ g ++ sq)]))
          "AND"
          (.infixExpr (.columnRef field0) "<="
            (.functionExpr "parseDateTime64BestEffort" [.literal (sq ++ l ++ sq)]))))
        true field0 := by
  have hks : mapKeysSorted vm = ["format", "gte", "lte"] :=
    mapKeysSorted_eq_of_perm hperm (by decide)
  have hfb : (f == "epoch_millis") = false := by simp [hf]
  by_cases hfi : env.isoParses f = true
  · simp [parseRange, hres, hks, hfmt, hg, hl, hfb, rangeLoop, rangeValueToCompare,
      parseDateTimeStringFn, hdt, hgiso, hliso, hfi, exprAnd, combineStatements]
  · have hfi2 : env.isoParses f = false := by simpa using hfi
    simp [parseRange, hres, hks, hfmt, hg, hl, hfb, rangeLoop, rangeValueToCompare,
      parseDateTimeStringFn, hdt, hgiso, hliso, hfi2, exprAnd, combineStatements]

/-- Claim C4, witness: the spec's S1 range body against the `DateTime64`
timestamp column, with the map keys deliberately out of order. -/
theorem C4_witness :
    parseRange c4Env [("timestamp", .obj
        [("gte", .str "2024-02-02T13:47:16.029Z"),
         ("lte", .str "2024-02-09T13:47:16.029Z"),
         ("format", .str "strict_date_optional_time")])] =
      newSimpleQueryWithFieldName
        (some (.infixExpr
          (.infixExpr (.columnRef "timestamp") ">="
            (.functionExpr "parseDateTime64BestEffort"
              [.literal (sq ++ "2024-02-02T13:47:16.029Z" ++ sq)]))
          "AND"
          (.infixExpr (.columnRef "timestamp") "<="
            (.functionExpr "parseDateTime64BestEffort"
              [.literal (sq ++ "2024-02-09T13:47:16.029Z" ++ sq)]))))
        true "timestamp" :=
  C4_range_datetime64 c4Env "timestamp" "strict_date_optional_time"
    "2024-02-02T13:47:16.029Z" "2024-02-09T13:47:16.029Z"
    [("gte", .str "2024-02-02T13:47:16.029Z"),
     ("lte", .str "2024-02-09T13:47:16.029Z"),
     ("format", .str "strict_date_optional_time")]
    (by decide) rfl rfl rfl (by decide) rfl rfl rfl rfl

/-! ## Claim C5 -/

/-- Claim C5: on a column of database type `Array(String)`, the array
transform rewrites `col LIKE lit` and `col ILIKE lit` (operator compared
upper-cased) to `arrayExists(x -> x OP lit, col)`, rewrites `col = lit` to
`has(col, lit)`, passes any other operator through unchanged, and the S4
term query on `tags`/`prod` yields `has("tags", 'prod')` after the select
transform. -/
theorem C5_array_rewrite (t : Table) (c op : String) (r : Expr)
    (harr : dbColumnType t c = "Array(String)") :
    ((asciiUpper op = "ILIKE" ∨ asciiUpper op = "LIKE") →
      arrayVisit t (.infixExpr (.columnRef c) op r) =
        .functionExpr "arrayExists"
          [.lambdaExpr ["x"] (.infixExpr (.literal "x") (asciiUpper op) (arrayVisit t r)),
           .columnRef c]) ∧
    (op = "=" → asciiUpper op ≠ "ILIKE" → asciiUpper op ≠ "LIKE" →
      arrayVisit t (.infixExpr (.columnRef c) op r) =
        .functionExpr "has" [.columnRef c, arrayVisit t r]) ∧
    (asciiUpper op ≠ "ILIKE" → asciiUpper op ≠ "LIKE" → op ≠ "=" →
      arrayVisit t (.infixExpr (.columnRef c) op r) =
        .infixExpr (.columnRef c) op (arrayVisit t r)) ∧
    (arrayVisitSelect s4Registry s4FindTable "logs" s4Select = s4SelectOut) := by
  have hpre : strStartsWith "Array(String)" "Array" = true := by decide
  have heq : asciiUpper "=" = "=" := by decide
  refine ⟨?_, ?_, ?_, ?_⟩
  · intro hop
    rcases hop with h | h <;> simp [arrayVisit, harr, h, hpre]
  · intro hop h1 h2
    subst hop
    simp [arrayVisit, harr, hpre, heq]
  · intro h1 h2 h3
    simp [arrayVisit, harr, hpre, h1, h2, h3]
  · rfl

/-- Claim C5, witness: the `=`-to-`has` rewrite at the concrete S4 column
and literal. -/
theorem C5_witness :
    dbColumnType tagsTable "tags" = "Array(String)" ∧
    arrayVisit tagsTable (.infixExpr (.columnRef "tags") "=" (.literal (sq ++ "prod" ++ sq))) =
      .functionExpr "has" [.columnRef "tags", .literal (sq ++ "prod" ++ sq)] := by
  refine ⟨by decide, ?_⟩
  have h := (C5_array_rewrite tagsTable "tags" "=" (.literal (sq ++ "prod" ++ sq)) (by decide)).2.1
    rfl (by decide) (by decide)
  exact h.trans rfl

/-! ## Claim C6 -/

/-- Claim C6: the schema-check pass rewrites `col = lit` and `col iLIKE lit`
where the literal contains a slash and the column's configured type mapping
is `ip` into `isIPAddressInRange(CAST(col, 'String'), lit)` with every `%`
removed from the literal; any other operator passes the predicate through
unchanged. -/
theorem C6_ip_rewrite (cfg : IndexConfigMap) (tbl c op s : String)
    (hip : (alookup ((alookup cfg tbl).getD {}).typeMappings c).getD "" = "ip")
    (hslash : strContains s '/' = true)
    (hc : c.length ≠ 0) (hs : s.length ≠ 0) :
    ((op = "=" ∨ op = "iLIKE") →
      whereVisit cfg tbl (.infixExpr (.columnRef c) op (.literal s)) =
        .functionExpr "isIPAddressInRange"
          [.functionExpr "CAST" [.literal c, .literal (sq ++ "String" ++ sq)],
           .literal (replaceAll s "%" "")]) ∧
    (op ≠ "=" → op ≠ "iLIKE" →
      whereVisit cfg tbl (.infixExpr (.columnRef c) op (.literal s)) =
        .infixExpr (.columnRef c) op (.literal s)) := by
  constructor
  · intro hop
    rcases hop with h | h <;> simp [whereVisit, exprNameValue, h, hslash, hip, hc, hs]
  · intro h1 h2
    simp [whereVisit, exprNameValue, hslash, hip, hc, hs, h1, h2]

/-- Claim C6, witness: the S2 scenario `client_ip = '10.0.0.0/8'` on an
ip-typed field. -/
theorem C6_witness :
    whereVisit [("logs", { typeMappings := [("client_ip", "ip")] })] "logs"
        (.infixExpr (.columnRef "client_ip") "=" (.literal (sq ++ "10.0.0.0/8" ++ sq))) =
      .functionExpr "isIPAddressInRange"
        [.functionExpr "CAST" [.literal "client_ip", .literal (sq ++ "String" ++ sq)],
         .literal (replaceAll (sq ++ "10.0.0.0/8" ++ sq) "%" "")] :=
  (C6_ip_rewrite [("logs", { typeMappings := [("client_ip", "ip")] })] "logs" "client_ip" "="
    (sq ++ "10.0.0.0/8" ++ sq) (by decide) (by decide) (by decide) (by decide)).1 (Or.inl rfl)

/-! ## Claim C7 -/

/-- Claim C7: `SchemaCheckPass.Transform` (the IP pass followed by the geo
pass, per query) is idempotent on every list of queries, provided the
registry declares no point-typed field whose own name ends in the internal
`::lat`/`::lon` suffixes (without that sanity condition a point field named
`p::lat` would be expanded again by the second run). -/
theorem C7_transform_idempotent (cfg : IndexConfigMap) (reg : SchemaRegistry)
    (hreg : NoPointSuffixFields reg) (queries : List Query) :
    schemaCheckTransform cfg reg (schemaCheckTransform cfg reg queries) =
      schemaCheckTransform cfg reg queries := by
  simp only [schemaCheckTransform, List.map_map]
  induction queries with
  | nil => rfl
  | cons q rest ih =>
    simp only [List.map_cons, List.cons.injEq]
    exact ⟨transformQuery_idem cfg reg hreg q, by simpa [Function.comp] using ih⟩

/-- Claim C7, witness: one pass over a query that triggers both the IP
rewrite and the geo point expansion, run twice. -/
theorem C7_witness :
    schemaCheckTransform c7Cfg c7Reg (schemaCheckTransform c7Cfg c7Reg [c7Query]) =
      schemaCheckTransform c7Cfg c7Reg [c7Query] :=
  C7_transform_idempotent c7Cfg c7Reg (by decide) [c7Query]

/-! ## Claim C8 -/

/-- Claim C8: the async capacity guard — the limits are 10000 stored async
queries and 1024 * 1024 * 500 cumulative stored body bytes, an async
search runs its database query exactly when both strict bounds hold, and
otherwise the request is rejected with the "too many async queries" error
before any database work. -/
theorem C8_capacity_guard (st : AsyncRequestStorage) :
    asyncQueriesLimit = 10000 ∧
    asyncQueriesLimitBytes = 1024 * 1024 * 500 ∧
    (searchWorkerGate st true = .ranDbQuery ↔
      st.size < asyncQueriesLimit ∧ asyncQueriesCumulatedBodySize st < asyncQueriesLimitBytes) ∧
    (¬ (st.size < asyncQueriesLimit ∧ asyncQueriesCumulatedBodySize st < asyncQueriesLimitBytes) →
      searchWorkerGate st true = .rejected "too many async queries") := by
  refine ⟨rfl, rfl, ?_, ?_⟩ <;>
    (simp only [searchWorkerGate, reachedQueriesLimit]
     by_cases h1 : st.size < asyncQueriesLimit <;>
       by_cases h2 : asyncQueriesCumulatedBodySize st < asyncQueriesLimitBytes <;>
       simp [h1, h2])

/-- Claim C8, witness: an empty storage admits the async query. -/
theorem C8_witness :
    searchWorkerGate { entries := [] } true = .ranDbQuery :=
  ((C8_capacity_guard { entries := [] }).2.2.1).mpr (by decide)

/-! ## Claim C9 -/

/-- Claim C9, counterexample: on the value `aaa` with the single token `aa`
the code finds only the non-overlapping occurrence at 0 (the per-token loop
resumes at the end of each match), so it emits `<b>aa</b>`, while finding
all case-insensitive occurrences as the spec says (0 and 1, which merge to
the whole string) would emit `<b>aaa</b>`. -/
theorem C9_counterexample :
    highlightValue hl9 "col" "aaa" = some ["<b>aa</b>"] ∧
    specHighlightValue hl9 "col" "aaa" = some ["<b>aaa</b>"] ∧
    highlightValue hl9 "col" "aaa" ≠ specHighlightValue hl9 "col" "aaa" := by
  refine ⟨by decide, by decide, by decide⟩

/-- Claim C9 (amended): with both tag lists non-empty, `HighlightValue`
returns exactly the merged matches, each wrapped as
`pre_tags[0] ++ value[start:stop] ++ post_tags[0]` in list order; the merged
matches are strictly separated (each stops before the next starts, so no
two emitted fragments overlap and they appear left to right); and the
tokens are tried longest first.  Per token only the occurrences found by
resuming at the end of the previous match are collected, not all
occurrences. -/
theorem C9_amended (h : Highlighter) (col value preTag postTag : String)
    (ps qs : List String) (hp : h.preTags = preTag :: ps) (hq : h.postTags = postTag :: qs) :
    highlightValue h col value =
      some ((hlMerged h col value).map
        (fun m => preTag ++ sliceStr value m.start m.stop ++ postTag)) ∧
    List.Chain' (fun a b : HMatch => a.stop < b.start) (hlMerged h col value) ∧
    List.Sorted (fun a b : String => b.length ≤ a.length) (getSortedTokens h col) := by
  refine ⟨?_, ?_, ?_⟩
  · by_cases hm : (hlMatches h col value).isEmpty
    · have hnil : hlMatches h col value = [] := by simpa [List.isEmpty_iff] using hm
      simp [highlightValue, hp, hq, hm, hlMerged, hnil, mergeMs, mergeMsF]
    · simp [highlightValue, hp, hq, hm]
  · exact mergeMs_chain _ (List.Pairwise.chain' (List.sorted_insertionSort _ _))
  · exact List.sorted_insertionSort _ _

/-- Claim C9, witness: the amended theorem at the concrete highlighter. -/
theorem C9_witness :
    highlightValue hl9 "col" "aaa" =
      some ((hlMerged hl9 "col" "aaa").map
        (fun m => "<b>" ++ sliceStr "aaa" m.start m.stop ++ "</b>")) ∧
    List.Chain' (fun a b : HMatch => a.stop < b.start) (hlMerged hl9 "col" "aaa") ∧
    List.Sorted (fun a b : String => b.length ≤ a.length) (getSortedTokens hl9 "col") :=
  C9_amended hl9 "col" "aaa" "<b>" "</b>" [] [] rfl rfl

/-! ## Claim C10 -/

/-- Claim C10: range parsing is deterministic in the JSON map's key order —
permuting the per-field operator object (with distinct keys) never changes
the parsed `SimpleQuery`, because the operator keys are iterated in sorted
order; and for an object with exactly the keys gt, gte, lt, lte the sorted
iteration order is the fixed list `[gt, gte, lt, lte]`. -/
theorem C10_range_order_deterministic :
    (∀ (env : ParserEnv) (field0 : String) (vm1 vm2 : QueryMap),
      vm1.Perm vm2 → (vm1.map Prod.fst).Nodup →
      parseRange env [(field0, .obj vm1)] = parseRange env [(field0, .obj vm2)]) ∧
    (∀ vm : QueryMap, (vm.map Prod.fst).Perm ["gt", "gte", "lt", "lte"] →
      mapKeysSorted vm = ["gt", "gte", "lt", "lte"]) := by
  constructor
  · intro env field0 vm1 vm2 p nd
    have hl : ∀ k, lookupQM vm1 k = lookupQM vm2 k := fun k => lookupQM_perm k p nd
    have hks : mapKeysSorted vm1 = mapKeysSorted vm2 := mapKeysSorted_congr (p.map Prod.fst)
    simp only [parseRange, hl, hks, rangeLoop_congr env (resolveField env field0) hl]
  · intro vm p
    exact mapKeysSorted_eq_of_perm p (by decide)

/-- Claim C10, witness: the same range object in two key orders parses
identically. -/
theorem C10_witness :
    parseRange envSimple [("timestamp", .obj [("lte", .str "b"), ("gte", .str "a")])] =
      parseRange envSimple [("timestamp", .obj [("gte", .str "a"), ("lte", .str "b")])] :=
  C10_range_order_deterministic.1 envSimple "timestamp"
    [("lte", .str "b"), ("gte", .str "a")] [("gte", .str "a"), ("lte", .str "b")]
    (List.Perm.swap ("gte", JsonValue.str "a") ("lte", JsonValue.str "b") []) (by decide)

end Quesma
